import Mathlib

/-!
# Velocy trie router (`src/Router.js`)

A shallow embedding of `RouteNode` and `TrieRouter` and the properties of route
registration (`addRoute`) and route lookup (`findRoute`).

Modelling conventions.

* JavaScript strings are Lean strings (sequences of Unicode characters); a handler (a
  function object, compared by reference) is a natural-number identity.
* A JavaScript `Map` is an insertion-ordered association list: `get` returns the first
  binding of the key, `set` overwrites the binding of the key in place or appends one.
* Nodes are mutable objects reached through exactly one parent slot, so in-place
  mutation of a node is a functional update of the tree along the walked path.
* A call that throws keeps the mutations made before the throw: `addRoute` returns the
  router state after the call together with the outcome.
-/

namespace Velocy

/-! ## JavaScript values and built-ins -/

/-- Identity of a handler function object. -/
abbrev Handler := Nat

/-- The JavaScript values an argument of `addRoute` can be: a string, a function, or a value
of any other type (numbers, objects, `null`, `undefined`, ...). -/
inductive JSValue where
  | string (s : String)
  | function (f : Handler)
  | other (tag : Nat)
  deriving DecidableEq, Repr

/-- Upper-case mapping of one character, as `String.prototype.toUpperCase` applies it: the
ASCII letters, and the non-ASCII characters whose upper-case form consists of ASCII letters
(sharp s, dotless i, long s and the Latin ligatures). Every other non-ASCII character has a
non-ASCII upper-case form in JavaScript, which no key of `HTTP_METHODS` contains; it is left
unchanged here. -/
def upperChar (c : Char) : List Char :=
  if c = Char.ofNat 0xDF then ['S', 'S']
  else if c = Char.ofNat 0x131 then ['I']
  else if c = Char.ofNat 0x17F then ['S']
  else if c = Char.ofNat 0xFB00 then ['F', 'F']
  else if c = Char.ofNat 0xFB01 then ['F', 'I']
  else if c = Char.ofNat 0xFB02 then ['F', 'L']
  else if c = Char.ofNat 0xFB03 then ['F', 'F', 'I']
  else if c = Char.ofNat 0xFB04 then ['F', 'F', 'L']
  else if c = Char.ofNat 0xFB05 then ['S', 'T']
  else if c = Char.ofNat 0xFB06 then ['S', 'T']
  else [c.toUpper]

/-- JavaScript `String.prototype.toUpperCase`. -/
def toUpperCase (s : String) : String :=
  String.mk (s.data.flatMap upperChar)

/-- JavaScript `String.prototype.toLowerCase` on ASCII letters (the source only tests the
result for truthiness). -/
def toLowerCase (s : String) : String :=
  String.mk (s.data.map Char.toLower)

/-- JavaScript truthiness of a string: a string is truthy iff it is not empty. -/
def truthy (s : String) : Bool :=
  !s.data.isEmpty

/-- JavaScript `s.startsWith(":")`. -/
def startsWithColon (s : String) : Bool :=
  match s.data with
  | c :: _ => c == ':'
  | [] => false

/-- JavaScript `s.substring(1)`. -/
def substring1 (s : String) : String :=
  String.mk s.data.tail

/-- The pieces of a character sequence between the occurrences of `/`. -/
def splitChars : List Char → List (List Char)
  | [] => [[]]
  | c :: cs =>
    if c = '/' then [] :: splitChars cs
    else
      match splitChars cs with
      | [] => [[c]]
      | p :: ps => (c :: p) :: ps

/-- JavaScript `path.split("/")`. -/
def split (path : String) : List String :=
  (splitChars path.data).map String.mk

/-! ## `Map` and plain objects -/

/-- JavaScript `Map.prototype.get`; `none` is `undefined`. -/
def mapGet {V : Type} : List (String × V) → String → Option V
  | [], _ => none
  | (k, v) :: rest, key => if k = key then some v else mapGet rest key

/-- JavaScript `Map.prototype.has`. -/
def mapHas {V : Type} (m : List (String × V)) (key : String) : Bool :=
  (mapGet m key).isSome

/-- JavaScript `Map.prototype.set`. -/
def mapSet {V : Type} : List (String × V) → String → V → List (String × V)
  | [], key, v => [(key, v)]
  | (k, w) :: rest, key, v =>
    if k = key then (k, v) :: rest else (k, w) :: mapSet rest key v

/-- The own properties of the object `dynamicParams`, in creation order. -/
abbrev Params := List (String × String)

/-- The assignment `dynamicParams[name] = value` on an object created by `{}` with a string
`value`. The key `__proto__` is the accessor inherited from `Object.prototype`, whose
setter ignores a value that is neither an object nor `null`: no own property is created.
Every other key creates or overwrites an own property. -/
def setProperty (params : Params) (name value : String) : Params :=
  if name = "__proto__" then params else mapSet params name value

/-! ## `HTTP_METHODS` -/

/-- The keys of the object `HTTP_METHODS`. -/
def HTTP_METHODS : List String :=
  ["GET", "POST", "PUT", "DELETE", "PATCH", "HEAD", "OPTIONS", "CONNECT", "TRACE"]

/-- Truthiness of `HTTP_METHODS[method.toUpperCase()]`. The properties inherited from
`Object.prototype` all contain a lower-case letter, so an upper-cased key never reaches
them. -/
def isHttpMethod (method : String) : Bool :=
  HTTP_METHODS.contains (toUpperCase method)

/-! ## `RouteNode` -/

/-- The class `RouteNode`: `children`, `handler`, `wildCardHandlers` and `dynamicChild`
(`none` is `null`, `some (paramName, node)` is the object with these two properties). -/
inductive RouteNode where
  | mk (children : List (String × RouteNode)) (handler : List (String × Handler))
      (wildCardHandlers : List (String × Handler))
      (dynamicChild : Option (String × RouteNode))

namespace RouteNode

/-- The field `children`. -/
def children : RouteNode → List (String × RouteNode)
  | mk c _ _ _ => c

/-- The field `handler`. -/
def handler : RouteNode → List (String × Handler)
  | mk _ h _ _ => h

/-- The field `wildCardHandlers`. -/
def wildCardHandlers : RouteNode → List (String × Handler)
  | mk _ _ w _ => w

/-- The field `dynamicChild`. -/
def dynamicChild : RouteNode → Option (String × RouteNode)
  | mk _ _ _ d => d

/-- The constructor `new RouteNode()`. -/
def new : RouteNode :=
  mk [] [] [] none

/-- The method `addHandler(method, handler)` with `node = this`. -/
def addHandler (self : RouteNode) (method : String) (h : Handler) : RouteNode :=
  mk self.children (mapSet self.handler (toUpperCase method) h) self.wildCardHandlers
    self.dynamicChild

end RouteNode

/-- The errors the router throws. -/
inductive RouterError where
  | invalidArgument
  | invalidMethod
  | wildcardNotLast
  deriving DecidableEq, Repr

/-- The message of each thrown `Error`. -/
def RouterError.message : RouterError → String
  | .invalidArgument =>
    "'path' should be of the type `string` and 'handler' should be of the type `function` and 'path' should be of type `string`"
  | .invalidMethod => "Invalid HTTP method"
  | .wildcardNotLast => "'*' wildcard should be the last."

/-- The outcome of `RouteNode.add`: it throws, returns `undefined` (the wildcard case) or
returns the node it inserted. -/
inductive AddOutcome where
  | threw (e : RouterError)
  | undefined
  | inserted (newNode : RouteNode)

/-- The method `RouteNode.add(path, method, handler, isLastPath)`: the receiver after the
call and the outcome. The inserted node is returned with the handler it received when
`isLastPath` holds; the receiver holds that same node in `children` or `dynamicChild`. -/
def RouteNode.add (self : RouteNode) (path method : String) (h : Handler)
    (isLastPath : Bool) : RouteNode × AddOutcome :=
  let method := toUpperCase method
  let newNode := RouteNode.new
  if path = "*" then
    if !isLastPath then (self, .threw .wildcardNotLast)
    else
      (RouteNode.mk self.children self.handler (mapSet self.wildCardHandlers method h)
        self.dynamicChild, .undefined)
  else
    let newNode := if isLastPath then newNode.addHandler method h else newNode
    if startsWithColon path then
      (RouteNode.mk self.children self.handler self.wildCardHandlers
        (some (substring1 path, newNode)), .inserted newNode)
    else
      (RouteNode.mk (mapSet self.children path newNode) self.handler self.wildCardHandlers
        self.dynamicChild, .inserted newNode)

/-- The receiver after the node held in `children` under `seg` has become `child`. -/
def RouteNode.setChild (self : RouteNode) (seg : String) (child : RouteNode) : RouteNode :=
  RouteNode.mk (mapSet self.children seg child) self.handler self.wildCardHandlers
    self.dynamicChild

/-- The receiver after the node held in `dynamicChild["node"]` has become `child`. -/
def RouteNode.setDynamicNode (self : RouteNode) (child : RouteNode) : RouteNode :=
  match self.dynamicChild with
  | some (name, _) =>
    RouteNode.mk self.children self.handler self.wildCardHandlers (some (name, child))
  | none => self

/-! ## `TrieRouter` -/

/-- The `for` loop of `addRoute` from `currentNode = node` over the remaining segments:
the node after the loop and the error thrown, if any. The mutations made before a throw are
kept. -/
def addRouteLoop (method : String) (h : Handler) : List String → RouteNode →
    RouteNode × Option RouterError
  | [], node => (node, none)
  | currentPath :: rest, node =>
    let isLast := rest.isEmpty
    match mapGet node.children currentPath with
    | some foundNode =>
      let currentNode := if isLast then foundNode.addHandler method h else foundNode
      let r := addRouteLoop method h rest currentNode
      (node.setChild currentPath r.1, r.2)
    | none =>
      match node.add currentPath method h isLast with
      | (node1, .threw e) => (node1, some e)
      | (node1, .undefined) => (node1, none)
      | (node1, .inserted newNode) =>
        let r := addRouteLoop method h rest newNode
        if startsWithColon currentPath then (node1.setDynamicNode r.1, r.2)
        else (node1.setChild currentPath r.1, r.2)

/-- The callback of `filter` in `#normalizePath`: the truthiness of what it returns. -/
def keepSegment (path : String) : Bool :=
  if !truthy path then false
  else if startsWithColon path then truthy path
  else truthy (toLowerCase path)

/-- The method `#normalizePath(path)`. -/
def normalizePath (path : String) : List String :=
  (split path).filter keepSegment

/-- The class `TrieRouter`. -/
structure TrieRouter where
  root : RouteNode

/-- The constructor `new TrieRouter()`. -/
def TrieRouter.new : TrieRouter :=
  ⟨RouteNode.new⟩

/-- The method `addRoute(path, method, handler)`: the router after the call and what the
call did (`Except.error` is a thrown error). -/
def TrieRouter.addRoute (self : TrieRouter) (path method handler : JSValue) :
    TrieRouter × Except RouterError Unit :=
  match path, handler, method with
  | .string p, .function h, .string m =>
    if !isHttpMethod m then (self, .error .invalidMethod)
    else
      match addRouteLoop m h (normalizePath p) self.root with
      | (root, some e) => (⟨root⟩, .error e)
      | (root, none) => (⟨root⟩, .ok ())
  | _, _, _ => (self, .error .invalidArgument)

/-- The locals of `findRoute` that the loop updates. -/
structure FindState where
  handler : Option Handler
  dynamicParams : Params
  fallBackHandler : Option Handler
  deriving DecidableEq, Repr

/-- The `for` loop of `findRoute` from `currentNode = node` over the remaining segments;
`method` is already upper-cased. -/
def findRouteLoop (method : String) : List String → RouteNode → FindState → FindState
  | [], _, st => st
  | seg :: rest, currentNode, st =>
    let isLast := rest.isEmpty
    let lit := mapGet currentNode.children seg
    let nextNode : Option RouteNode :=
      match lit, currentNode.dynamicChild with
      | some n, _ => some n
      | none, some (_, n) => some n
      | none, none => none
    let dynamicParams : Params :=
      match lit, currentNode.dynamicChild with
      | none, some (paramName, _) => setProperty st.dynamicParams paramName seg
      | _, _ => st.dynamicParams
    let fallBackHandler := mapGet currentNode.wildCardHandlers method
    match nextNode with
    | none => ⟨st.handler, dynamicParams, fallBackHandler⟩
    | some nextNode =>
      if isLast && !mapHas nextNode.handler method then
        ⟨st.handler, dynamicParams, fallBackHandler⟩
      else
        let handler := if isLast then mapGet nextNode.handler method else st.handler
        findRouteLoop method rest nextNode ⟨handler, dynamicParams, fallBackHandler⟩

/-- The value of `handler || fallBackHandler`: handlers are function objects, hence truthy;
`none` is `null` or `undefined`. -/
def orElse (handler fallBackHandler : Option Handler) : Option Handler :=
  match handler with
  | some h => some h
  | none => fallBackHandler

/-- What `findRoute` returns: the properties `handler` and `params` of the result object. -/
structure RouteMatch where
  handler : Option Handler
  params : Params
  deriving DecidableEq, Repr

deriving instance DecidableEq for Except

/-- The method `findRoute(path, method)`. -/
def TrieRouter.findRoute (self : TrieRouter) (path method : String) :
    Except RouterError RouteMatch :=
  if !isHttpMethod method then .error .invalidMethod
  else
    let method := toUpperCase method
    let st := findRouteLoop method (normalizePath path) self.root ⟨none, [], none⟩
    .ok ⟨orElse st.handler st.fallBackHandler, st.dynamicParams⟩

/-- A call of `addRoute` with its three arguments. -/
structure Call where
  path : JSValue
  method : JSValue
  handler : JSValue

/-- The router after one call. -/
def TrieRouter.after (self : TrieRouter) (c : Call) : TrieRouter :=
  (self.addRoute c.path c.method c.handler).1

/-- The router after a sequence of calls, thrown errors being caught by the caller. -/
def TrieRouter.afterAll (self : TrieRouter) (calls : List Call) : TrieRouter :=
  calls.foldl TrieRouter.after self

/-- A registration call `addRoute(path, method, handler)` with well-typed arguments. -/
def reg (path method : String) (h : Handler) : Call :=
  ⟨.string path, .string method, .function h⟩

/-- The candidate next node of `findRoute` at `node` for segment `seg`: the literal child,
else the dynamic child. -/
def nextNode (node : RouteNode) (seg : String) : Option RouteNode :=
  match mapGet node.children seg with
  | some n => some n
  | none => node.dynamicChild.map Prod.snd

/-- The parameters after the step of `findRoute` at `node` for segment `seg`. -/
def nextParams (node : RouteNode) (seg : String) (params : Params) : Params :=
  match mapGet node.children seg, node.dynamicChild with
  | none, some (paramName, _) => setProperty params paramName seg
  | _, _ => params

/-- The node from which the loop of `addRoute` continues after segment `seg` at `node`: the
literal child found, or the node `RouteNode.add` creates, with the handler when the segment
is the last one. -/
def addStart (method : String) (h : Handler) (node : RouteNode) (seg : String)
    (isLast : Bool) : RouteNode :=
  match mapGet node.children seg with
  | some foundNode => if isLast then foundNode.addHandler method h else foundNode
  | none =>
    if isLast then RouteNode.new.addHandler (toUpperCase method) h else RouteNode.new

/-- The node `node` once the slot that segment `seg` of a registered route goes through (the
literal child, or the dynamic child for a `:name` segment without literal child) holds
`child`. -/
def link (node : RouteNode) (seg : String) (child : RouteNode) : RouteNode :=
  if (mapGet node.children seg).isSome || !startsWithColon seg then node.setChild seg child
  else
    RouteNode.mk node.children node.handler node.wildCardHandlers
      (some (substring1 seg, child))

/-- The node reached from `node` through literal children only, along `segs`. -/
def litNode : List String → RouteNode → Option RouteNode
  | [], node => some node
  | seg :: rest, node =>
    match mapGet node.children seg with
    | some n => litNode rest n
    | none => none

/-- The handler registered for `method` at the node reached through literal children. -/
def staticHandler (segs : List String) (method : String) (node : RouteNode) :
    Option Handler :=
  match litNode segs node with
  | some n => mapGet n.handler method
  | none => none

/-- The handler that call `c` registers for the segment sequence `segs` and the upper-case
method `M`, when its arguments are well typed, its path normalizes to `segs` and its method
upper-cases to `M`. -/
def Call.registers (c : Call) (segs : List String) (M : String) : Option Handler :=
  match c.path, c.method, c.handler with
  | .string p, .string m, .function h =>
    if normalizePath p = segs ∧ toUpperCase m = M then some h else none
  | _, _, _ => none

/-- The handler of the most recent successful call, among `calls` run in order from router
`r`, whose path normalizes to `segs` and whose method upper-cases to `M`; `acc` when there is
no such call. -/
def lastRegistered (segs : List String) (M : String) :
    TrieRouter → List Call → Option Handler → Option Handler
  | _, [], acc => acc
  | r, c :: cs, acc =>
    let out := r.addRoute c.path c.method c.handler
    let acc1 :=
      match out.2, c.registers segs M with
      | .ok _, some h => some h
      | _, _ => acc
    lastRegistered segs M out.1 cs acc1

/-- No node of the tree holds a literal child under the key `*`. -/
inductive StarFree : RouteNode → Prop
  | mk (c : List (String × RouteNode)) (hd w : List (String × Handler))
      (d : Option (String × RouteNode)) :
      mapGet c "*" = none → (∀ k n, (k, n) ∈ c → StarFree n) →
      (∀ name n, d = some (name, n) → StarFree n) → StarFree (RouteNode.mk c hd w d)

/-- The literal child of `node` under `seg`, or a new node when there is none. -/
def childOrNew (node : RouteNode) (seg : String) : RouteNode :=
  match mapGet node.children seg with
  | some n => n
  | none => RouteNode.new

/-- The node at the end of the chain of literal children `P` below `node`, a new node when
the chain is not there. -/
def baseAt : List String → RouteNode → RouteNode
  | [], node => node
  | p :: ps, node => baseAt ps (childOrNew node p)

/-- The tree `node` once the chain of literal children `P` exists below it and the node at
its end has been updated by `f`. -/
def atPrefix (f : RouteNode → RouteNode) : List String → RouteNode → RouteNode
  | [], node => f node
  | p :: ps, node => node.setChild p (atPrefix f ps (childOrNew node p))

/-- The parameters the loop of `findRoute` has assigned after walking the request segments
against the route segments, starting from `params`: at each `:name` segment of the route the
assignment `dynamicParams[name] = segment`. -/
def bindParams : List String → List String → Params → Params
  | r :: rs, q :: qs, params =>
    bindParams rs qs (if startsWithColon r then setProperty params (substring1 r) q else params)
  | _, _, params => params

/-- The names of the dynamic segments of a route, in order. -/
def paramNames (route : List String) : List String :=
  (route.filter startsWithColon).map substring1

/-- The mapping from the name of each dynamic segment of the route to the request segment at
the same position. -/
def expectedParams : List String → List String → Params
  | r :: rs, q :: qs =>
    if startsWithColon r then (substring1 r, q) :: expectedParams rs qs
    else expectedParams rs qs
  | _, _ => []

/-- A request matches a route segment by segment: equal at the literal positions, anything
at the dynamic ones. -/
def SegmentsMatch (route request : List String) : Prop :=
  List.Forall₂ (fun r q => startsWithColon r = true ∨ q = r) route request

/-- The test `typeof v == "string"`. -/
def JSValue.isString : JSValue → Bool
  | .string _ => true
  | _ => false

/-- The test `typeof v == "function"`. -/
def JSValue.isFunction : JSValue → Bool
  | .function _ => true
  | _ => false

/-- Path normalization as the specification words it, for comparison with `normalizePath`:
the pieces of `path` between slashes that are not empty, in their order and unchanged. -/
def nonEmptyPieces (path : String) : List String :=
  (split path).filter (fun piece => decide (piece ≠ ""))

/-- Every key of every `handler` and `wildCardHandlers` map of the tree satisfies `K`, and
every `paramName` of a `dynamicChild` in the tree satisfies `N`. -/
inductive WellKeyed (K N : String → Prop) : RouteNode → Prop
  | mk (c : List (String × RouteNode)) (hd w : List (String × Handler))
      (d : Option (String × RouteNode)) :
      (∀ k v, (k, v) ∈ hd → K k) → (∀ k v, (k, v) ∈ w → K k) →
      (∀ k n, (k, n) ∈ c → WellKeyed K N n) →
      (∀ name n, d = some (name, n) → N name) →
      (∀ name n, d = some (name, n) → WellKeyed K N n) →
      WellKeyed K N (RouteNode.mk c hd w d)

/-- The parameter names of the path a call registers, when the path is a string. -/
def Call.paramNames (c : Call) : List String :=
  match c.path with
  | .string p => Velocy.paramNames (normalizePath p)
  | _ => []

/-- The node that is `currentNode` in the last iteration the loop of `findRoute` executes,
started at `node` over `segs`: the loop descends while a candidate next node exists and a
further segment remains. -/
def lastCurrent : List String → RouteNode → RouteNode
  | [], node => node
  | seg :: rest, node =>
    match nextNode node seg with
    | none => node
    | some n => if rest.isEmpty then node else lastCurrent rest n

/-- The route segment `:name` of a dynamic child whose `paramName` is `name`. -/
def colonSeg (name : String) : String :=
  String.mk (':' :: name.data)

/-- Every handler of the tree below `node` sits where a registration recorded by `R` put it:
`pre` is the route walked from the root to `node` (a literal key per literal child, `:name`
per dynamic child), each handler of the node is recorded for the route `pre`, and no key of
`children` starts with `:`. -/
inductive Traceable (R : List String → String → Handler → Prop) :
    List String → RouteNode → Prop
  | mk (pre : List String) (c : List (String × RouteNode)) (hd w : List (String × Handler))
      (d : Option (String × RouteNode)) :
      (∀ k v, (k, v) ∈ hd → R pre k v) →
      (∀ k n, (k, n) ∈ c → startsWithColon k = false) →
      (∀ k n, (k, n) ∈ c → Traceable R (pre ++ [k]) n) →
      (∀ name n, d = some (name, n) → Traceable R (pre ++ [colonSeg name]) n) →
      Traceable R pre (RouteNode.mk c hd w d)

/-- The registration a call makes in router `r`, when it succeeds: the segments of its
route, the method key and the handler. -/
def Call.registration (c : Call) (r : TrieRouter) : List (List String × String × Handler) :=
  match c.path, c.method, c.handler with
  | .string p, .string m, .function h =>
    if (r.addRoute (.string p) (.string m) (.function h)).2 = .ok () then
      [(normalizePath p, toUpperCase m, h)]
    else []
  | _, _, _ => []

/-- The registrations made by the successful calls among `calls`, run in order from `r`. -/
def registrations : TrieRouter → List Call → List (List String × String × Handler)
  | _, [] => []
  | r, c :: cs => c.registration r ++ registrations (r.after c) cs

/-- The route the loop of `findRoute` walks from `node` over `segs`: per iteration with a
candidate next node, the request segment when the literal child is taken, `:name` when the
dynamic child named `name` is taken; the walk ends where no candidate exists. -/
def walkedSteps : List String → RouteNode → List String
  | [], _ => []
  | seg :: rest, node =>
    match mapGet node.children seg, node.dynamicChild with
    | some n, _ => seg :: walkedSteps rest n
    | none, some (name, n) => colonSeg name :: walkedSteps rest n
    | none, none => []

/-! # Properties -/

/-! ## Maps -/

theorem mapGet_mapSet_self {V : Type} (m : List (String × V)) (k : String) (v : V) :
    mapGet (mapSet m k v) k = some v := by
  induction m with
  | nil => simp [mapSet, mapGet]
  | cons kv rest ih =>
    obtain ⟨k1, w⟩ := kv
    by_cases hk : k1 = k
    · simp [mapSet, mapGet, hk]
    · simp [mapSet, mapGet, hk, ih]

theorem mapGet_mapSet_of_ne {V : Type} (m : List (String × V)) (k k1 : String) (v : V)
    (hne : k ≠ k1) : mapGet (mapSet m k v) k1 = mapGet m k1 := by
  induction m with
  | nil => simp [mapSet, mapGet, hne]
  | cons kv rest ih =>
    obtain ⟨k2, w⟩ := kv
    by_cases hk : k2 = k
    · subst hk
      simp [mapSet, mapGet, hne]
    · by_cases hk1 : k2 = k1
      · subst hk1
        simp [mapSet, mapGet, hk]
      · simp [mapSet, mapGet, hk, hk1, ih]

theorem mapSet_mapSet_self {V : Type} (m : List (String × V)) (k : String) (v w : V) :
    mapSet (mapSet m k v) k w = mapSet m k w := by
  induction m with
  | nil => simp [mapSet]
  | cons kv rest ih =>
    obtain ⟨k1, u⟩ := kv
    by_cases hk : k1 = k
    · simp [mapSet, hk]
    · simp [mapSet, hk, ih]

/-! ## Nodes -/

@[simp]
theorem RouteNode.children_mk (c : List (String × RouteNode)) (hd w : List (String × Handler))
    (d : Option (String × RouteNode)) : (RouteNode.mk c hd w d).children = c := rfl

@[simp]
theorem RouteNode.handler_mk (c : List (String × RouteNode)) (hd w : List (String × Handler))
    (d : Option (String × RouteNode)) : (RouteNode.mk c hd w d).handler = hd := rfl

@[simp]
theorem RouteNode.wildCardHandlers_mk (c : List (String × RouteNode))
    (hd w : List (String × Handler)) (d : Option (String × RouteNode)) :
    (RouteNode.mk c hd w d).wildCardHandlers = w := rfl

@[simp]
theorem RouteNode.dynamicChild_mk (c : List (String × RouteNode))
    (hd w : List (String × Handler)) (d : Option (String × RouteNode)) :
    (RouteNode.mk c hd w d).dynamicChild = d := rfl

/-- One iteration of the loop of `findRoute`, through `nextNode` and `nextParams`. -/
theorem findRouteLoop_cons (M seg : String) (rest : List String) (node : RouteNode)
    (st : FindState) :
    findRouteLoop M (seg :: rest) node st =
      match nextNode node seg with
      | none => ⟨st.handler, nextParams node seg st.dynamicParams,
          mapGet node.wildCardHandlers M⟩
      | some n =>
        if rest.isEmpty && !mapHas n.handler M then
          ⟨st.handler, nextParams node seg st.dynamicParams, mapGet node.wildCardHandlers M⟩
        else
          findRouteLoop M rest n
            ⟨if rest.isEmpty then mapGet n.handler M else st.handler,
              nextParams node seg st.dynamicParams, mapGet node.wildCardHandlers M⟩ := by
  obtain ⟨c, hd, w, d⟩ := node
  cases hc : mapGet c seg with
  | some n => simp [findRouteLoop, nextNode, nextParams, hc]
  | none =>
    cases d with
    | none => simp [findRouteLoop, nextNode, nextParams, hc]
    | some pn =>
      obtain ⟨name, n⟩ := pn
      simp [findRouteLoop, nextNode, nextParams, hc]

/-! ## One step of registration -/

theorem addRouteLoop_cons (m : String) (h : Handler) (seg : String) (rest : List String)
    (node : RouteNode) (hstar : seg ≠ "*") :
    addRouteLoop m h (seg :: rest) node =
      (link node seg (addRouteLoop m h rest (addStart m h node seg rest.isEmpty)).1,
        (addRouteLoop m h rest (addStart m h node seg rest.isEmpty)).2) := by
  obtain ⟨c, hd, w, d⟩ := node
  cases hc : mapGet c seg with
  | some n => simp [addRouteLoop, link, addStart, hc]
  | none =>
    by_cases hcol : startsWithColon seg = true
    · simp [addRouteLoop, link, addStart, hc, RouteNode.add, hstar, hcol,
        RouteNode.setDynamicNode]
    · simp [addRouteLoop, link, addStart, hc, RouteNode.add, hstar, hcol,
        RouteNode.setChild, mapSet_mapSet_self]

theorem link_handler (node : RouteNode) (seg : String) (child : RouteNode) :
    (link node seg child).handler = node.handler := by
  unfold link
  split <;> simp [RouteNode.setChild]

theorem link_wildCardHandlers (node : RouteNode) (seg : String) (child : RouteNode) :
    (link node seg child).wildCardHandlers = node.wildCardHandlers := by
  unfold link
  split <;> simp [RouteNode.setChild]

theorem nextNode_link (node : RouteNode) (seg : String) (child : RouteNode) :
    nextNode (link node seg child) seg = some child := by
  unfold link
  split
  · simp [nextNode, RouteNode.setChild, mapGet_mapSet_self]
  · rename_i hcond
    simp only [Bool.or_eq_true, Option.isSome_iff_exists, not_or, not_exists] at hcond
    cases hc : mapGet node.children seg with
    | some n => exact absurd hc (hcond.1 n)
    | none => simp [nextNode, hc]

theorem nextParams_link_of_literal (node : RouteNode) (seg : String) (child : RouteNode)
    (params : Params) (hlit : startsWithColon seg = false) :
    nextParams (link node seg child) seg params = params := by
  simp [link, hlit, nextParams, RouteNode.setChild, mapGet_mapSet_self]

/-! ## Methods -/

theorem toUpperCase_idem (m : String) (hm : isHttpMethod m = true) :
    toUpperCase (toUpperCase m) = toUpperCase m := by
  have hmem : toUpperCase m ∈ HTTP_METHODS := by
    simpa [isHttpMethod] using hm
  simp only [HTTP_METHODS, List.mem_cons, List.mem_singleton, List.not_mem_nil, or_false] at hmem
  rcases hmem with h | h | h | h | h | h | h | h | h <;> rw [h] <;> decide

theorem addStart_handler_of_last (m : String) (h : Handler) (node : RouteNode) (seg : String)
    (hidem : toUpperCase (toUpperCase m) = toUpperCase m) :
    mapGet (addStart m h node seg true).handler (toUpperCase m) = some h := by
  unfold addStart
  split <;> simp [RouteNode.addHandler, hidem, mapGet_mapSet_self]

/-! ## Lookup of the path just registered -/

/-- After the loop of `addRoute` over segments none of which is `*`, the loop of `findRoute`
over the same segments records the registered handler; the registration throws nothing. -/
theorem findRouteLoop_addRouteLoop (m : String) (h : Handler)
    (hidem : toUpperCase (toUpperCase m) = toUpperCase m) :
    ∀ (segs : List String) (node : RouteNode) (st : FindState), segs ≠ [] →
      (∀ s ∈ segs, s ≠ "*") →
      (addRouteLoop m h segs node).2 = none ∧
        (findRouteLoop (toUpperCase m) segs (addRouteLoop m h segs node).1 st).handler =
          some h := by
  intro segs
  induction segs with
  | nil => intro _ _ hne; exact absurd rfl hne
  | cons seg rest ih =>
    intro node st _ hstar
    have hseg : seg ≠ "*" := hstar seg (List.mem_cons_self _ _)
    rw [addRouteLoop_cons m h seg rest node hseg]
    simp only [findRouteLoop_cons, nextNode_link]
    cases rest with
    | nil =>
      simp [addRouteLoop, findRouteLoop, mapHas, addStart_handler_of_last m h node seg hidem]
    | cons s2 rest2 =>
      have hrest : ∀ s ∈ s2 :: rest2, s ≠ "*" := fun s hs => hstar s (List.mem_cons_of_mem _ hs)
      have := ih (addStart m h node seg false)
        ⟨st.handler, nextParams (link node seg
          (addRouteLoop m h (s2 :: rest2) (addStart m h node seg false)).1) seg
          st.dynamicParams, mapGet (link node seg
          (addRouteLoop m h (s2 :: rest2) (addStart m h node seg false)).1).wildCardHandlers
          (toUpperCase m)⟩ (by simp) hrest
      simpa using this

/-! ## Static routes -/

/-- A handler stored at the end of a chain of literal children is what the loop of
`findRoute` records, without touching the parameters. -/
theorem findRouteLoop_of_staticHandler (M : String) (h : Handler) :
    ∀ (segs : List String) (node : RouteNode) (st : FindState), segs ≠ [] →
      staticHandler segs M node = some h →
      (findRouteLoop M segs node st).handler = some h ∧
        (findRouteLoop M segs node st).dynamicParams = st.dynamicParams := by
  intro segs
  induction segs with
  | nil => intro _ _ hne; exact absurd rfl hne
  | cons seg rest ih =>
    intro node st _ hs
    rw [findRouteLoop_cons]
    cases hc : mapGet node.children seg with
    | none => simp [staticHandler, litNode, hc] at hs
    | some n =>
      have hn : nextNode node seg = some n := by simp [nextNode, hc]
      have hp : ∀ p, nextParams node seg p = p := by
        intro p
        simp [nextParams, hc]
      cases rest with
      | nil =>
        have hh : mapGet n.handler M = some h := by
          simpa [staticHandler, litNode, hc] using hs
        simp [hn, hp, mapHas, hh, findRouteLoop]
      | cons s2 rest2 =>
        have hs2 : staticHandler (s2 :: rest2) M n = some h := by
          simpa [staticHandler, litNode, hc] using hs
        have := ih n ⟨st.handler, st.dynamicParams, mapGet node.wildCardHandlers M⟩
          (by simp) hs2
        simpa [hn, hp] using this

theorem mapGet_mapSet {V : Type} (m : List (String × V)) (k k1 : String) (v : V) :
    mapGet (mapSet m k v) k1 = if k = k1 then some v else mapGet m k1 := by
  by_cases hk : k = k1
  · subst hk
    simp [mapGet_mapSet_self]
  · simp [hk, mapGet_mapSet_of_ne]

theorem staticHandler_nil (M : String) (node : RouteNode) :
    staticHandler [] M node = mapGet node.handler M := by
  simp [staticHandler, litNode]

theorem staticHandler_cons (seg : String) (rest : List String) (M : String)
    (node : RouteNode) :
    staticHandler (seg :: rest) M node =
      match mapGet node.children seg with
      | some n => staticHandler rest M n
      | none => none := by
  cases hc : mapGet node.children seg <;> simp [staticHandler, litNode, hc]

/-- The loop of `addRoute` never changes the handler map of the node it starts from. -/
theorem addRouteLoop_handler (m : String) (h : Handler) (segs : List String)
    (node : RouteNode) : (addRouteLoop m h segs node).1.handler = node.handler := by
  cases segs with
  | nil => simp [addRouteLoop]
  | cons seg rest =>
    by_cases hstar : seg = "*"
    · subst hstar
      obtain ⟨c, hd, w, d⟩ := node
      cases hc : mapGet c "*" with
      | some n => simp [addRouteLoop, hc, RouteNode.setChild]
      | none =>
        cases hl : rest.isEmpty <;> simp [addRouteLoop, hc, RouteNode.add, hl]
    · rw [addRouteLoop_cons m h seg rest node hstar, link_handler]

/-- The literal children of a node after one loop of `addRoute`, at a key other than the
first segment, are the ones before. -/
theorem addRouteLoop_children_of_ne (m : String) (h : Handler) (seg : String)
    (rest : List String) (node : RouteNode) (key : String) (hne : seg ≠ key) :
    mapGet (addRouteLoop m h (seg :: rest) node).1.children key =
      mapGet node.children key := by
  by_cases hstar : seg = "*"
  · subst hstar
    obtain ⟨c, hd, w, d⟩ := node
    cases hc : mapGet c "*" with
    | some n => simp [addRouteLoop, hc, RouteNode.setChild, mapGet_mapSet_of_ne _ _ _ _ hne]
    | none =>
      cases hl : rest.isEmpty <;> simp [addRouteLoop, hc, RouteNode.add, hl]
  · rw [addRouteLoop_cons m h seg rest node hstar]
    unfold link
    split
    · simp [RouteNode.setChild, mapGet_mapSet_of_ne _ _ _ _ hne]
    · simp

theorem addRouteLoop_children_self (m : String) (h : Handler) (seg : String)
    (rest : List String) (node : RouteNode) (hstar : seg ≠ "*")
    (hlit : startsWithColon seg = false) :
    mapGet (addRouteLoop m h (seg :: rest) node).1.children seg =
      some (addRouteLoop m h rest (addStart m h node seg rest.isEmpty)).1 := by
  rw [addRouteLoop_cons m h seg rest node hstar]
  simp [link, hlit, RouteNode.setChild, mapGet_mapSet_self]

theorem staticHandler_addStart (m : String) (h : Handler) (node : RouteNode) (seg s2 : String)
    (rest2 : List String) (M : String) (isLast : Bool) :
    staticHandler (s2 :: rest2) M (addStart m h node seg isLast) =
      staticHandler (seg :: s2 :: rest2) M node := by
  rw [staticHandler_cons seg]
  unfold addStart
  cases hc : mapGet node.children seg with
  | some n => cases isLast <;> simp [staticHandler_cons, RouteNode.addHandler]
  | none =>
    cases isLast <;> simp [staticHandler_cons, RouteNode.addHandler, RouteNode.new, mapGet]

theorem addStart_handler (m : String) (h : Handler) (node : RouteNode) (seg M : String)
    (isLast : Bool) (hidem : toUpperCase (toUpperCase m) = toUpperCase m) :
    mapGet (addStart m h node seg isLast).handler M =
      if isLast = true ∧ toUpperCase m = M then some h else staticHandler [seg] M node := by
  rw [staticHandler_cons seg]
  unfold addStart
  cases hc : mapGet node.children seg with
  | some n =>
    cases isLast <;> simp [staticHandler_nil, RouteNode.addHandler, mapGet_mapSet]
  | none =>
    cases isLast <;>
      simp [staticHandler_nil, RouteNode.addHandler, mapGet_mapSet, RouteNode.new, mapGet,
        hidem]

/-- How one loop of `addRoute` changes the handler stored at a chain of literal children:
it sets it when the loop walks exactly that chain for that method, and leaves it alone
otherwise (also when the loop throws). -/
theorem staticHandler_addRouteLoop (m : String) (h : Handler) (M : String)
    (hidem : toUpperCase (toUpperCase m) = toUpperCase m) :
    ∀ (Q P : List String) (node : RouteNode), P ≠ [] →
      (∀ s ∈ P, s ≠ "*" ∧ startsWithColon s = false) →
      staticHandler P M (addRouteLoop m h Q node).1 =
        if Q = P ∧ toUpperCase m = M then some h else staticHandler P M node := by
  intro Q
  induction Q with
  | nil =>
    intro P node hP _
    have : ¬ ([] = P) := fun e => hP e.symm
    simp [addRouteLoop, this]
  | cons q rest ih =>
    intro P node hP hstatic
    cases P with
    | nil => exact absurd rfl hP
    | cons p prest =>
      have hp := hstatic p (List.mem_cons_self _ _)
      by_cases hqp : q = p
      · subst hqp
        rw [staticHandler_cons, addRouteLoop_children_self m h q rest node hp.1 hp.2]
        cases prest with
        | nil =>
          simp only [staticHandler_nil, addRouteLoop_handler]
          rw [addStart_handler m h node q M _ hidem]
          cases rest <;> simp
        | cons p2 prest2 =>
          have hrest : ∀ s ∈ p2 :: prest2, s ≠ "*" ∧ startsWithColon s = false :=
            fun s hs => hstatic s (List.mem_cons_of_mem _ hs)
          simp only []
          rw [ih (p2 :: prest2) _ (by simp) hrest, staticHandler_addStart]
          simp
      · rw [staticHandler_cons, addRouteLoop_children_of_ne m h q rest node p hqp,
          ← staticHandler_cons]
        simp [hqp]

/-! ## The router -/

theorem addRoute_of_valid (r : TrieRouter) (p m : String) (h : Handler)
    (hm : isHttpMethod m = true) :
    r.addRoute (.string p) (.string m) (.function h) =
      (⟨(addRouteLoop m h (normalizePath p) r.root).1⟩,
        match (addRouteLoop m h (normalizePath p) r.root).2 with
        | some e => .error e
        | none => .ok ()) := by
  unfold TrieRouter.addRoute
  simp only [hm, Bool.not_true, Bool.false_eq_true, if_false]
  rcases hloop : addRouteLoop m h (normalizePath p) r.root with ⟨root, _ | e⟩ <;> simp

theorem findRoute_of_valid (r : TrieRouter) (p m : String) (hm : isHttpMethod m = true) :
    r.findRoute p m =
      .ok ⟨orElse (findRouteLoop (toUpperCase m) (normalizePath p) r.root ⟨none, [], none⟩).handler
          (findRouteLoop (toUpperCase m) (normalizePath p) r.root
            ⟨none, [], none⟩).fallBackHandler,
        (findRouteLoop (toUpperCase m) (normalizePath p) r.root
          ⟨none, [], none⟩).dynamicParams⟩ := by
  simp [TrieRouter.findRoute, hm]

/-- What `findRoute` returns for a path of literal segments whose chain of literal children
holds a handler for the method. -/
theorem findRoute_of_staticHandler (r : TrieRouter) (p m : String) (h : Handler)
    (hm : isHttpMethod m = true) (hne : normalizePath p ≠ [])
    (hs : staticHandler (normalizePath p) (toUpperCase m) r.root = some h) :
    r.findRoute p m = .ok ⟨some h, []⟩ := by
  have := findRouteLoop_of_staticHandler (toUpperCase m) h (normalizePath p) r.root
    ⟨none, [], none⟩ hne hs
  rw [findRoute_of_valid r p m hm, this.1, this.2]
  rfl

/-- The handler at a chain of literal children after one call of `addRoute`, whatever the
call and its outcome. -/
theorem staticHandler_after (r : TrieRouter) (c : Call) (P : List String) (M : String)
    (hP : P ≠ []) (hstatic : ∀ s ∈ P, s ≠ "*" ∧ startsWithColon s = false) :
    staticHandler P M (r.after c).root =
      match (r.addRoute c.path c.method c.handler).2, c.registers P M with
      | .ok _, some h => some h
      | _, _ => staticHandler P M r.root := by
  obtain ⟨path, method, handler⟩ := c
  unfold TrieRouter.after
  cases path with
  | function f => simp [TrieRouter.addRoute]
  | other t => simp [TrieRouter.addRoute]
  | string p =>
    cases handler with
    | string s => simp [TrieRouter.addRoute]
    | other t => simp [TrieRouter.addRoute]
    | function h =>
      cases method with
      | function f => simp [TrieRouter.addRoute]
      | other t => simp [TrieRouter.addRoute]
      | string m =>
        cases hm : isHttpMethod m with
        | false => simp [TrieRouter.addRoute, hm]
        | true =>
          have hidem := toUpperCase_idem m hm
          simp only [addRoute_of_valid r p m h hm, Call.registers]
          rw [staticHandler_addRouteLoop m h M hidem (normalizePath p) P r.root hP hstatic]
          by_cases hQ : normalizePath p = P ∧ toUpperCase m = M
          · have hnostar : ∀ s ∈ normalizePath p, s ≠ "*" := by
              rw [hQ.1]
              exact fun s hs => (hstatic s hs).1
            have hne : normalizePath p ≠ [] := by
              rw [hQ.1]
              exact hP
            have hok := (findRouteLoop_addRouteLoop m h hidem (normalizePath p) r.root
              ⟨none, [], none⟩ hne hnostar).1
            rw [hQ.1] at hok
            simp [hQ, hok]
          · simp only [hQ, if_false]
            split <;> simp_all

theorem staticHandler_afterAll (P : List String) (M : String) (hP : P ≠ [])
    (hstatic : ∀ s ∈ P, s ≠ "*" ∧ startsWithColon s = false) :
    ∀ (calls : List Call) (r : TrieRouter),
      staticHandler P M (r.afterAll calls).root =
        lastRegistered P M r calls (staticHandler P M r.root) := by
  intro calls
  induction calls with
  | nil => intro r; simp [TrieRouter.afterAll, lastRegistered]
  | cons c cs ih =>
    intro r
    have hstep := staticHandler_after r c P M hP hstatic
    have := ih (r.after c)
    simp only [TrieRouter.afterAll, List.foldl_cons] at this ⊢
    rw [this, hstep]
    simp [lastRegistered, TrieRouter.after]

/-! ## Static round trip (C1) -/

/-- C1, as stated, fails at the path `/`: it normalizes to zero segments, so `addRoute`
succeeds without storing the handler anywhere, and `findRoute` on the same path returns no
handler rather than the registered one. -/
theorem C1_root_path_counterexample :
    (TrieRouter.new.addRoute (.string "/") (.string "GET") (.function 1)).2 = .ok () ∧
      (TrieRouter.new.addRoute (.string "/") (.string "GET") (.function 1)).1.findRoute
        "/" "GET" = .ok ⟨none, []⟩ ∧
      (TrieRouter.new.addRoute (.string "/") (.string "GET") (.function 1)).1.findRoute
        "/" "GET" ≠ .ok ⟨some 1, []⟩ := by
  decide

/-- C1 (amended): in every router state, for every recognized method `m`, handler `h` and
path string with at least one segment, none of whose segments is `*` or starts with `:`,
`addRoute(path, m, h)` succeeds and `findRoute(path, m)` then returns exactly `h` with an
empty params object. -/
theorem C1_static_round_trip (r : TrieRouter) (path m : String) (h : Handler)
    (hm : isHttpMethod m = true) (hne : normalizePath path ≠ [])
    (hstatic : ∀ s ∈ normalizePath path, s ≠ "*" ∧ startsWithColon s = false) :
    (r.addRoute (.string path) (.string m) (.function h)).2 = .ok () ∧
      (r.addRoute (.string path) (.string m) (.function h)).1.findRoute path m =
        .ok ⟨some h, []⟩ := by
  have hidem := toUpperCase_idem m hm
  have hok := (findRouteLoop_addRouteLoop m h hidem (normalizePath path) r.root
    ⟨none, [], none⟩ hne (fun s hs => (hstatic s hs).1)).1
  refine ⟨by simp [addRoute_of_valid r path m h hm, hok], ?_⟩
  apply findRoute_of_staticHandler _ path m h hm hne
  rw [addRoute_of_valid r path m h hm]
  simp [staticHandler_addRouteLoop m h (toUpperCase m) hidem (normalizePath path)
    (normalizePath path) r.root hne hstatic]

/-- C1 (amended) at the router holding `/api/*` and `/api/:id`, for the path `/api/books`. -/
theorem C1_static_round_trip_witness :
    ((TrieRouter.new.afterAll [reg "/api/*" "GET" 1, reg "/api/:id" "GET" 2]).addRoute
        (.string "/api/books") (.string "get") (.function 3)).2 = .ok () ∧
      ((TrieRouter.new.afterAll [reg "/api/*" "GET" 1, reg "/api/:id" "GET" 2]).addRoute
        (.string "/api/books") (.string "get") (.function 3)).1.findRoute "/api/books" "get" =
        .ok ⟨some 3, []⟩ :=
  C1_static_round_trip _ "/api/books" "get" 3 (by decide) (by decide) (by decide)

/-! ## Static routes are never lost (C2) -/

/-- C2: after any sequence of `addRoute` calls on a fresh router (succeeding or throwing,
with any arguments), for every path of at least one segment, all literal, and every
recognized method `m`, `findRoute(path, m)` returns with empty params the handler of the most
recent successful call whose path normalizes to the same segments and whose method
upper-cases like `m`; no other call of the sequence takes part in the result. -/
theorem C2_static_routes_never_lost (calls : List Call) (path m : String) (h : Handler)
    (hm : isHttpMethod m = true) (hne : normalizePath path ≠ [])
    (hstatic : ∀ s ∈ normalizePath path, s ≠ "*" ∧ startsWithColon s = false)
    (hlast : lastRegistered (normalizePath path) (toUpperCase m) TrieRouter.new calls none =
      some h) :
    (TrieRouter.new.afterAll calls).findRoute path m = .ok ⟨some h, []⟩ := by
  apply findRoute_of_staticHandler _ path m h hm hne
  rw [staticHandler_afterAll (normalizePath path) (toUpperCase m) hne hstatic calls
    TrieRouter.new, ← hlast]
  cases hp : normalizePath path with
  | nil => exact absurd hp hne
  | cons s rest => simp [staticHandler_cons, TrieRouter.new, RouteNode.new, mapGet]

/-- C2 on a sequence with a re-registration, a dynamic sibling, a throwing call and a
wildcard for another method. -/
theorem C2_static_routes_never_lost_witness :
    (TrieRouter.new.afterAll
      [reg "/a/b" "GET" 1, reg "/a/:x" "GET" 2, reg "a//b/" "get" 3, reg "/a/*/c" "GET" 4,
        reg "/a/*" "POST" 5, ⟨.string "/a/b", .string "GET", .other 0⟩]).findRoute
      "/a/b" "GET" = .ok ⟨some 3, []⟩ :=
  C2_static_routes_never_lost _ "/a/b" "GET" 3 (by decide) (by decide) (by decide) (by decide)

/-! ## Re-registration replaces (C7) -/

/-- C7: in every router state, for every recognized method `m`, every path with at least one
segment and no `*` segment, and handlers `h1`, `h2`, the calls `addRoute(path, m, h1)` and
`addRoute(path, m, h2)` both succeed and `findRoute(path, m)` then returns `h2` as handler,
hence not `h1` when the two differ. -/
theorem C7_reregistration_replaces (r : TrieRouter) (path m : String) (h1 h2 : Handler)
    (hm : isHttpMethod m = true) (hne : normalizePath path ≠ [])
    (hstar : ∀ s ∈ normalizePath path, s ≠ "*") :
    (r.addRoute (.string path) (.string m) (.function h1)).2 = .ok () ∧
      ((r.addRoute (.string path) (.string m) (.function h1)).1.addRoute
        (.string path) (.string m) (.function h2)).2 = .ok () ∧
      (((r.addRoute (.string path) (.string m) (.function h1)).1.addRoute
        (.string path) (.string m) (.function h2)).1.findRoute path m).map
          RouteMatch.handler = .ok (some h2) ∧
      (h1 ≠ h2 →
        (((r.addRoute (.string path) (.string m) (.function h1)).1.addRoute
          (.string path) (.string m) (.function h2)).1.findRoute path m).map
            RouteMatch.handler ≠ .ok (some h1)) := by
  have hidem := toUpperCase_idem m hm
  have hreg : ∀ (r0 : TrieRouter) (h : Handler),
      (r0.addRoute (.string path) (.string m) (.function h)).2 = .ok () ∧
        ((r0.addRoute (.string path) (.string m) (.function h)).1.findRoute path m).map
          RouteMatch.handler = .ok (some h) := by
    intro r0 h
    have hloop := findRouteLoop_addRouteLoop m h hidem (normalizePath path) r0.root
      ⟨none, [], none⟩ hne hstar
    rw [addRoute_of_valid r0 path m h hm, findRoute_of_valid _ path m hm]
    simp [hloop.1, hloop.2, orElse, Except.map]
  refine ⟨(hreg r h1).1, (hreg _ h2).1, (hreg _ h2).2, ?_⟩
  intro hne12
  rw [(hreg _ h2).2]
  intro heq
  injection heq with heq
  injection heq with heq
  exact hne12 heq.symm

/-- C7 at the router holding `/users/me`, for the route `/users/:id`. -/
theorem C7_reregistration_replaces_witness :
    ((TrieRouter.new.afterAll [reg "/users/me" "GET" 9]).addRoute
        (.string "/users/:id") (.string "GET") (.function 1)).2 = .ok () ∧
      (((TrieRouter.new.afterAll [reg "/users/me" "GET" 9]).addRoute
        (.string "/users/:id") (.string "GET") (.function 1)).1.addRoute
        (.string "/users/:id") (.string "GET") (.function 2)).2 = .ok () ∧
      ((((TrieRouter.new.afterAll [reg "/users/me" "GET" 9]).addRoute
        (.string "/users/:id") (.string "GET") (.function 1)).1.addRoute
        (.string "/users/:id") (.string "GET") (.function 2)).1.findRoute
          "/users/:id" "GET").map RouteMatch.handler = .ok (some 2) ∧
      ((1 : Handler) ≠ 2 →
        ((((TrieRouter.new.afterAll [reg "/users/me" "GET" 9]).addRoute
          (.string "/users/:id") (.string "GET") (.function 1)).1.addRoute
          (.string "/users/:id") (.string "GET") (.function 2)).1.findRoute
            "/users/:id" "GET").map RouteMatch.handler ≠ .ok (some 1)) :=
  C7_reregistration_replaces _ "/users/:id" "GET" 1 2 (by decide) (by decide) (by decide)

/-! ## The key `*` never enters `children` -/

theorem mem_of_mapGet {V : Type} (m : List (String × V)) (k : String) (v : V)
    (hget : mapGet m k = some v) : (k, v) ∈ m := by
  induction m with
  | nil => simp [mapGet] at hget
  | cons kv rest ih =>
    obtain ⟨k1, w⟩ := kv
    by_cases hk : k1 = k
    · subst hk
      simp [mapGet] at hget
      simp [hget]
    · simp [mapGet, hk] at hget
      exact List.mem_cons_of_mem _ (ih hget)

theorem mem_mapSet {V : Type} (m : List (String × V)) (k k1 : String) (v v1 : V)
    (hmem : (k1, v1) ∈ mapSet m k v) : (k1, v1) ∈ m ∨ v1 = v := by
  induction m with
  | nil =>
    simp [mapSet] at hmem
    exact Or.inr hmem.2
  | cons kv rest ih =>
    obtain ⟨k2, w⟩ := kv
    by_cases hk : k2 = k
    · simp [mapSet, hk] at hmem
      rcases hmem with ⟨_, hv⟩ | hmem
      · exact Or.inr hv
      · exact Or.inl (List.mem_cons_of_mem _ hmem)
    · simp [mapSet, hk] at hmem
      rcases hmem with ⟨hk1, hv⟩ | hmem
      · left
        simp [hk1, hv]
      · rcases ih hmem with hin | hv
        · exact Or.inl (List.mem_cons_of_mem _ hin)
        · exact Or.inr hv

theorem StarFree.children_star {node : RouteNode} (hsf : StarFree node) :
    mapGet node.children "*" = none := by
  cases hsf with
  | mk c hd w d hstar _ _ => simpa using hstar

theorem StarFree.of_child {node : RouteNode} (hsf : StarFree node) (k : String)
    (n : RouteNode) (hget : mapGet node.children k = some n) : StarFree n := by
  cases hsf with
  | mk c hd w d _ hch _ => exact hch k n (mem_of_mapGet c k n (by simpa using hget))

theorem StarFree.new : StarFree RouteNode.new :=
  StarFree.mk [] [] [] none rfl (fun _ _ hmem => by simp at hmem) (fun _ _ hd => by simp at hd)

theorem StarFree.addHandler {node : RouteNode} (hsf : StarFree node) (m : String)
    (h : Handler) : StarFree (node.addHandler m h) := by
  cases hsf with
  | mk c hd w d hstar hch hdyn => exact StarFree.mk c _ w d hstar hch hdyn

theorem StarFree.addStart {node : RouteNode} (hsf : StarFree node) (m : String) (h : Handler)
    (seg : String) (isLast : Bool) : StarFree (addStart m h node seg isLast) := by
  unfold Velocy.addStart
  cases hc : mapGet node.children seg with
  | some n =>
    have hn := hsf.of_child seg n hc
    cases isLast
    · simpa using hn
    · simpa using hn.addHandler m h
  | none =>
    cases isLast
    · simpa using StarFree.new
    · simpa using StarFree.new.addHandler (toUpperCase m) h

theorem StarFree.link {node child : RouteNode} (hsf : StarFree node) (hchild : StarFree child)
    (seg : String) (hseg : seg ≠ "*") : StarFree (link node seg child) := by
  cases hsf with
  | mk c hd w d hstar hch hdyn =>
    unfold Velocy.link
    split
    · refine StarFree.mk _ hd w d ?_ ?_ hdyn
      · simpa [mapGet_mapSet_of_ne _ _ _ _ hseg] using hstar
      · intro k n hmem
        rcases mem_mapSet c seg k child n (by simpa using hmem) with hin | hn
        · exact hch k n hin
        · exact hn ▸ hchild
    · refine StarFree.mk c hd w _ hstar hch ?_
      intro name n hsome
      simp only [Option.some.injEq, Prod.mk.injEq] at hsome
      exact hsome.2 ▸ hchild

/-- The loop of `addRoute` keeps the key `*` out of every `children` map. -/
theorem StarFree.addRouteLoop (m : String) (h : Handler) :
    ∀ (segs : List String) (node : RouteNode), StarFree node →
      StarFree (addRouteLoop m h segs node).1 := by
  intro segs
  induction segs with
  | nil => intro node hsf; simpa [Velocy.addRouteLoop] using hsf
  | cons seg rest ih =>
    intro node hsf
    by_cases hstar : seg = "*"
    · subst hstar
      have hc := hsf.children_star
      cases hsf with
      | mk c hd w d hs hch hdyn =>
        simp only [RouteNode.children_mk] at hc
        cases hl : rest.isEmpty
        · simpa [Velocy.addRouteLoop, hc, RouteNode.add, hl] using StarFree.mk c hd w d hs hch hdyn
        · simpa [Velocy.addRouteLoop, hc, RouteNode.add, hl] using StarFree.mk c hd _ d hs hch hdyn
    · rw [addRouteLoop_cons m h seg rest node hstar]
      exact hsf.link (ih _ (hsf.addStart m h seg _)) seg hstar

/-- The root after one call of `addRoute`: untouched, or the result of the loop. -/
theorem after_root (r : TrieRouter) (c : Call) :
    (r.after c).root = r.root ∨
      ∃ (p m : String) (h : Handler), isHttpMethod m = true ∧
        c = reg p m h ∧ (r.after c).root = (addRouteLoop m h (normalizePath p) r.root).1 := by
  obtain ⟨path, method, handler⟩ := c
  unfold TrieRouter.after
  cases path with
  | function f => simp [TrieRouter.addRoute]
  | other t => simp [TrieRouter.addRoute]
  | string p =>
    cases handler with
    | string s => simp [TrieRouter.addRoute]
    | other t => simp [TrieRouter.addRoute]
    | function h =>
      cases method with
      | function f => simp [TrieRouter.addRoute]
      | other t => simp [TrieRouter.addRoute]
      | string m =>
        cases hm : isHttpMethod m with
        | false => simp [TrieRouter.addRoute, hm]
        | true =>
          right
          exact ⟨p, m, h, hm, rfl, by simp [addRoute_of_valid r p m h hm]⟩

theorem StarFree.after {r : TrieRouter} (hsf : StarFree r.root) (c : Call) :
    StarFree (r.after c).root := by
  rcases after_root r c with hsame | ⟨p, m, h, _, _, hroot⟩
  · rw [hsame]
    exact hsf
  · rw [hroot]
    exact StarFree.addRouteLoop m h (normalizePath p) r.root hsf

/-- Every router state reached from a fresh router keeps `*` out of `children`. -/
theorem StarFree.afterAll (calls : List Call) :
    ∀ (r : TrieRouter), StarFree r.root → StarFree (r.afterAll calls).root := by
  induction calls with
  | nil => intro r hsf; simpa [TrieRouter.afterAll] using hsf
  | cons c cs ih =>
    intro r hsf
    have := ih (r.after c) (hsf.after c)
    simpa [TrieRouter.afterAll] using this

/-! ## When registration throws (C10) -/

/-- Without `*` before the last segment the loop of `addRoute` throws nothing, in any state. -/
theorem addRouteLoop_ok (m : String) (h : Handler) :
    ∀ (segs : List String) (node : RouteNode), "*" ∉ segs.dropLast →
      (addRouteLoop m h segs node).2 = none := by
  intro segs
  induction segs with
  | nil => intro node _; simp [addRouteLoop]
  | cons seg rest ih =>
    intro node hno
    cases rest with
    | nil =>
      by_cases hstar : seg = "*"
      · subst hstar
        obtain ⟨c, hd, w, d⟩ := node
        cases hc : mapGet c "*" <;> simp [addRouteLoop, hc, RouteNode.add]
      · rw [addRouteLoop_cons m h seg [] node hstar]
        simp [addRouteLoop]
    | cons s2 rest2 =>
      simp only [List.dropLast_cons₂, List.mem_cons, not_or] at hno
      rw [addRouteLoop_cons m h seg _ node (fun e => hno.1 e.symm)]
      exact ih _ hno.2

/-- With `*` before the last segment the loop of `addRoute` throws the wildcard error, in
every state that keeps `*` out of `children`. -/
theorem addRouteLoop_throws (m : String) (h : Handler) :
    ∀ (segs : List String) (node : RouteNode), StarFree node → "*" ∈ segs.dropLast →
      (addRouteLoop m h segs node).2 = some .wildcardNotLast := by
  intro segs
  induction segs with
  | nil => intro node _ hmem; simp at hmem
  | cons seg rest ih =>
    intro node hsf hmem
    cases rest with
    | nil => simp at hmem
    | cons s2 rest2 =>
      simp only [List.dropLast_cons₂, List.mem_cons] at hmem
      by_cases hstar : seg = "*"
      · subst hstar
        have hc := hsf.children_star
        obtain ⟨c, hd, w, d⟩ := node
        simp only [RouteNode.children_mk] at hc
        simp [addRouteLoop, hc, RouteNode.add]
      · rw [addRouteLoop_cons m h seg _ node hstar]
        refine ih _ (hsf.addStart m h seg _) ?_
        rcases hmem with hseg | hrest
        · exact absurd hseg.symm hstar
        · exact hrest

/-- C10: in every router state reached from a fresh router by any sequence of `addRoute`
calls, for every recognized method, function handler and path string, `addRoute` throws the
error "'*' wildcard should be the last." when the normalized path holds `*` at a position
other than the last, and throws nothing otherwise, in particular when its only `*` is the
last segment. -/
theorem C10_wildcard_must_be_last (calls : List Call) (path m : String) (h : Handler)
    (hm : isHttpMethod m = true) :
    ((TrieRouter.new.afterAll calls).addRoute (.string path) (.string m) (.function h)).2 =
        (if "*" ∈ (normalizePath path).dropLast then .error .wildcardNotLast else .ok ()) ∧
      RouterError.wildcardNotLast.message = "'*' wildcard should be the last." := by
  refine ⟨?_, rfl⟩
  have hsf : StarFree (TrieRouter.new.afterAll calls).root :=
    StarFree.afterAll calls TrieRouter.new StarFree.new
  rw [addRoute_of_valid _ path m h hm]
  by_cases hmem : "*" ∈ (normalizePath path).dropLast
  · simp [hmem, addRouteLoop_throws m h _ _ hsf hmem]
  · simp [hmem, addRouteLoop_ok m h _ _ hmem]

/-- C10 for the route `/a/*/b` on a router that already holds `/a/*` and `/a/:x`. -/
theorem C10_wildcard_must_be_last_witness :
    ((TrieRouter.new.afterAll [reg "/a/*" "GET" 1, reg "/a/:x" "GET" 2]).addRoute
        (.string "/a/*/b") (.string "GET") (.function 3)).2 =
        (if "*" ∈ (normalizePath "/a/*/b").dropLast then .error .wildcardNotLast
          else .ok ()) ∧
      RouterError.wildcardNotLast.message = "'*' wildcard should be the last." :=
  C10_wildcard_must_be_last _ "/a/*/b" "GET" 3 (by decide)

/-! ## Routes below a prefix of literal segments -/

theorem childOrNew_new (seg : String) : childOrNew RouteNode.new seg = RouteNode.new := by
  simp [childOrNew, RouteNode.new, mapGet]

theorem baseAt_new (P : List String) : baseAt P RouteNode.new = RouteNode.new := by
  induction P with
  | nil => rfl
  | cons p ps ih => simp [baseAt, childOrNew_new, ih]

theorem childOrNew_setChild (node : RouteNode) (seg : String) (child : RouteNode) :
    childOrNew (node.setChild seg child) seg = child := by
  simp [childOrNew, RouteNode.setChild, mapGet_mapSet_self]

theorem setChild_setChild (node : RouteNode) (seg : String) (a b : RouteNode) :
    (node.setChild seg a).setChild seg b = node.setChild seg b := by
  simp [RouteNode.setChild, mapSet_mapSet_self]

theorem addStart_not_last (m : String) (h : Handler) (node : RouteNode) (seg : String) :
    addStart m h node seg false = childOrNew node seg := by
  unfold addStart childOrNew
  split <;> simp

/-- The loop of `addRoute` over a prefix of literal segments followed by further segments
walks or creates the chain of the prefix and continues at its end. -/
theorem addRouteLoop_append (m : String) (h : Handler) (rest : List String)
    (hrest : rest ≠ []) :
    ∀ (P : List String) (node : RouteNode),
      (∀ s ∈ P, s ≠ "*" ∧ startsWithColon s = false) →
      (addRouteLoop m h (P ++ rest) node).1 =
        atPrefix (fun n => (addRouteLoop m h rest n).1) P node := by
  intro P
  induction P with
  | nil => intro node _; rfl
  | cons p ps ih =>
    intro node hlit
    have hp := hlit p (List.mem_cons_self _ _)
    have hempty : (ps ++ rest).isEmpty = false := by
      cases ps <;> cases rest <;> simp_all
    rw [List.cons_append, addRouteLoop_cons m h p _ node hp.1, hempty, addStart_not_last]
    simp only [link, hp.2, Bool.not_false, Bool.or_true, if_true, atPrefix]
    rw [ih _ (fun s hs => hlit s (List.mem_cons_of_mem _ hs))]

theorem atPrefix_atPrefix (f g : RouteNode → RouteNode) :
    ∀ (P : List String) (node : RouteNode),
      atPrefix f P (atPrefix g P node) = atPrefix (fun n => f (g n)) P node := by
  intro P
  induction P with
  | nil => intro node; rfl
  | cons p ps ih =>
    intro node
    simp only [atPrefix, childOrNew_setChild, setChild_setChild, ih]

/-- The loop of `findRoute` from its second iteration on does not depend on the fallback
recorded so far: every iteration overwrites it. -/
theorem findRouteLoop_fallBack (M : String) (rest : List String) (hrest : rest ≠ [])
    (node : RouteNode) (hd : Option Handler) (params : Params) (fb1 fb2 : Option Handler) :
    findRouteLoop M rest node ⟨hd, params, fb1⟩ = findRouteLoop M rest node ⟨hd, params, fb2⟩ := by
  cases rest with
  | nil => exact absurd rfl hrest
  | cons s r => simp only [findRouteLoop_cons]

/-- The loop of `findRoute` walks an existing chain of literal children without recording
anything. -/
theorem findRouteLoop_append (M : String) (f : RouteNode → RouteNode) (rest : List String)
    (hrest : rest ≠ []) :
    ∀ (P : List String) (node : RouteNode) (st : FindState),
      findRouteLoop M (P ++ rest) (atPrefix f P node) st =
        findRouteLoop M rest (f (baseAt P node)) st := by
  intro P
  induction P with
  | nil => intro node st; rfl
  | cons p ps ih =>
    intro node st
    have hempty : (ps ++ rest).isEmpty = false := by
      cases ps <;> cases rest <;> simp_all
    have hnext : nextNode (node.setChild p (atPrefix f ps (childOrNew node p))) p =
        some (atPrefix f ps (childOrNew node p)) := by
      simp [nextNode, RouteNode.setChild, mapGet_mapSet_self]
    have hparams : ∀ q, nextParams (node.setChild p (atPrefix f ps (childOrNew node p))) p q
        = q := by
      intro q
      simp [nextParams, RouteNode.setChild, mapGet_mapSet_self]
    rw [List.cons_append, findRouteLoop_cons]
    simp only [atPrefix, hnext, hparams, hempty, Bool.false_and, Bool.false_eq_true, if_false,
      baseAt]
    rw [ih]
    exact findRouteLoop_fallBack M rest hrest _ _ _ _ _

/-! ## Wildcard catch-all (C4) -/

theorem afterAll_single (r : TrieRouter) (p m : String) (h : Handler)
    (hm : isHttpMethod m = true) :
    (r.afterAll [reg p m h]).root = (addRouteLoop m h (normalizePath p) r.root).1 := by
  simp [TrieRouter.afterAll, TrieRouter.after, reg, addRoute_of_valid r p m h hm]

/-- C4: on a fresh router whose only registration is `addRoute(P + '/*', m, h)` with `P` a
possibly empty sequence of literal segments, every request path made of the segments of `P`
followed by at least one further segment resolves for `m` to `h` with empty params. -/
theorem C4_wildcard_catch_all (route request m : String) (h : Handler)
    (P extra : List String) (hm : isHttpMethod m = true)
    (hP : ∀ s ∈ P, s ≠ "*" ∧ startsWithColon s = false)
    (hroute : normalizePath route = P ++ ["*"])
    (hrequest : normalizePath request = P ++ extra) (hextra : extra ≠ []) :
    (TrieRouter.new.afterAll [reg route m h]).findRoute request m = .ok ⟨some h, []⟩ := by
  have hidem := toUpperCase_idem m hm
  rw [findRoute_of_valid _ request m hm, afterAll_single _ route m h hm, hroute, hrequest,
    addRouteLoop_append m h ["*"] (by simp) P _ hP,
    findRouteLoop_append (toUpperCase m) _ extra hextra P,
    show TrieRouter.new.root = RouteNode.new from rfl, baseAt_new]
  cases extra with
  | nil => exact absurd rfl hextra
  | cons e es =>
    simp [findRouteLoop_cons, nextNode, nextParams, addRouteLoop, RouteNode.add,
      RouteNode.new, mapGet, mapSet, orElse]

/-- C4 for the route `/api/*` and the request `/api/anything/deeper`. -/
theorem C4_wildcard_catch_all_witness :
    (TrieRouter.new.afterAll [reg "/api/*" "GET" 7]).findRoute "/api/anything/deeper" "GET" =
      .ok ⟨some 7, []⟩ :=
  C4_wildcard_catch_all "/api/*" "/api/anything/deeper" "GET" 7 ["api"] ["anything", "deeper"]
    (by decide) (by decide) (by decide) (by decide) (by decide)

/-! ## Parameter extraction (C3) -/

/-- On a new node, after the loop of `addRoute` over a route without `*`, the loop of
`findRoute` over a matching request records the handler and has made one assignment per
dynamic segment. -/
theorem findRouteLoop_single_route (m : String) (h : Handler)
    (hidem : toUpperCase (toUpperCase m) = toUpperCase m) :
    ∀ (R Q : List String) (st : FindState), R ≠ [] → (∀ s ∈ R, s ≠ "*") →
      SegmentsMatch R Q →
      (findRouteLoop (toUpperCase m) Q (addRouteLoop m h R RouteNode.new).1 st).handler =
          some h ∧
        (findRouteLoop (toUpperCase m) Q (addRouteLoop m h R RouteNode.new).1 st).dynamicParams =
          bindParams R Q st.dynamicParams := by
  intro R
  induction R with
  | nil => intro _ _ hne; exact absurd rfl hne
  | cons r rest ih =>
    intro Q st _ hstar hmatch
    have hr : r ≠ "*" := hstar r (List.mem_cons_self _ _)
    cases hmatch with
    | cons hrq htail =>
      rename_i q qs
      rw [addRouteLoop_cons m h r rest _ hr, findRouteLoop_cons]
      simp only []
      have hnext : ∀ child, nextNode (link RouteNode.new r child) q = some child ∧
          ∀ p, nextParams (link RouteNode.new r child) q p =
            if startsWithColon r then setProperty p (substring1 r) q else p := by
        intro child
        cases hcol : startsWithColon r
        · have hq : q = r := by simpa [hcol] using hrq
          subst hq
          simp [link, hcol, nextNode, nextParams, RouteNode.new, mapGet, RouteNode.setChild,
            mapSet]
        · simp [link, hcol, nextNode, nextParams, RouteNode.new, mapGet]
      cases rest with
      | nil =>
        cases htail
        simp [(hnext _).1, (hnext _).2, addRouteLoop, findRouteLoop, mapHas, bindParams,
          addStart_handler_of_last m h RouteNode.new r hidem]
      | cons r2 rest2 =>
        cases htail with
        | cons hrq2 htail2 =>
          rename_i q2 qs2
          have hrest : ∀ s ∈ r2 :: rest2, s ≠ "*" :=
            fun s hs => hstar s (List.mem_cons_of_mem _ hs)
          have hstart : addStart m h RouteNode.new r (r2 :: rest2).isEmpty = RouteNode.new := by
            simp [addStart, RouteNode.new, mapGet]
          rw [hstart]
          simp only [(hnext _).1, (hnext _).2, List.isEmpty_cons, Bool.false_and,
            Bool.false_eq_true, if_false]
          have := ih (q2 :: qs2)
            ⟨st.handler, if startsWithColon r then setProperty st.dynamicParams (substring1 r) q
              else st.dynamicParams, mapGet (link RouteNode.new r
                (addRouteLoop m h (r2 :: rest2) RouteNode.new).1).wildCardHandlers
                (toUpperCase m)⟩ (by simp) hrest (List.Forall₂.cons hrq2 htail2)
          simpa [bindParams] using this

theorem mapSet_of_fresh_key {V : Type} (m : List (String × V)) (k : String) (v : V)
    (hfresh : ∀ kv ∈ m, kv.1 ≠ k) : mapSet m k v = m ++ [(k, v)] := by
  induction m with
  | nil => rfl
  | cons kv rest ih =>
    obtain ⟨k1, w⟩ := kv
    have hk : k1 ≠ k := hfresh (k1, w) (List.mem_cons_self _ _)
    simp [mapSet, hk, ih (fun kv hkv => hfresh kv (List.mem_cons_of_mem _ hkv))]

theorem paramNames_cons (r : String) (rs : List String) :
    paramNames (r :: rs) =
      if startsWithColon r then substring1 r :: paramNames rs else paramNames rs := by
  cases hcol : startsWithColon r <;> simp [paramNames, List.filter, hcol]

/-- With pairwise distinct parameter names, none of them `__proto__`, the assignments of the
loop build exactly the mapping from names to request segments. -/
theorem bindParams_eq_expected :
    ∀ (R Q : List String) (acc : Params), (paramNames R).Nodup →
      "__proto__" ∉ paramNames R → (∀ n ∈ paramNames R, ∀ kv ∈ acc, kv.1 ≠ n) →
      bindParams R Q acc = acc ++ expectedParams R Q := by
  intro R
  induction R with
  | nil => intro Q acc _ _ _; simp [bindParams, expectedParams]
  | cons r rs ih =>
    intro Q acc hnodup hproto hdisj
    cases Q with
    | nil => simp [bindParams, expectedParams]
    | cons q qs =>
      rw [paramNames_cons] at hnodup hproto hdisj
      cases hcol : startsWithColon r
      · simp only [hcol, Bool.false_eq_true, if_false] at hnodup hproto hdisj
        simp [bindParams, expectedParams, hcol, ih qs acc hnodup hproto hdisj]
      · simp only [hcol, if_true, List.nodup_cons, List.mem_cons, not_or] at hnodup hproto hdisj
        have hset : setProperty acc (substring1 r) q = acc ++ [(substring1 r, q)] := by
          have hne : ¬ substring1 r = "__proto__" := fun e => hproto.1 e.symm
          simp only [setProperty, hne, if_false]
          exact mapSet_of_fresh_key acc _ q (fun kv hkv => hdisj _ (Or.inl rfl) kv hkv)
        have hdisj2 : ∀ n ∈ paramNames rs, ∀ kv ∈ acc ++ [(substring1 r, q)], kv.1 ≠ n := by
          intro n hn kv hkv
          rcases List.mem_append.mp hkv with hin | hlast
          · exact hdisj n (Or.inr hn) kv hin
          · simp only [List.mem_singleton] at hlast
            subst hlast
            intro e
            simp only at e
            exact hnodup.1 (by rw [e]; exact hn)
        simp [bindParams, expectedParams, hcol, hset,
          ih qs (acc ++ [(substring1 r, q)]) hnodup.2 hproto.2 hdisj2]

/-- Parameter extraction for every parameter name but `__proto__`: on a fresh router whose
only registration is `addRoute(route, m, h)`, the route having at least one segment, no `*`
segment and pairwise distinct parameter names other than `__proto__`, every request that
matches the route segment by segment resolves to `h` with params exactly the mapping from
each parameter name to the request segment at its position. -/
theorem param_extraction (route request m : String) (h : Handler)
    (hm : isHttpMethod m = true) (hne : normalizePath route ≠ [])
    (hstar : ∀ s ∈ normalizePath route, s ≠ "*")
    (hmatch : SegmentsMatch (normalizePath route) (normalizePath request))
    (hnodup : (paramNames (normalizePath route)).Nodup)
    (hproto : "__proto__" ∉ paramNames (normalizePath route)) :
    (TrieRouter.new.afterAll [reg route m h]).findRoute request m =
      .ok ⟨some h, expectedParams (normalizePath route) (normalizePath request)⟩ := by
  have hidem := toUpperCase_idem m hm
  have hloop := findRouteLoop_single_route m h hidem (normalizePath route)
    (normalizePath request) ⟨none, [], none⟩ hne hstar hmatch
  rw [findRoute_of_valid _ request m hm, afterAll_single _ route m h hm,
    show TrieRouter.new.root = RouteNode.new from rfl, hloop.1, hloop.2,
    bindParams_eq_expected _ _ [] hnodup hproto (fun _ _ kv hkv => by simp at hkv)]
  simp [orElse]

/-- The usage example of the source: `/api/books/:id` and the request `/api/books/1`. -/
theorem param_extraction_example :
    (TrieRouter.new.afterAll [reg "/api/books/:id" "GET" 7]).findRoute "/api/books/1" "GET" =
      .ok ⟨some 7, [("id", "1")]⟩ :=
  param_extraction "/api/books/:id" "/api/books/1" "GET" 7 (by decide) (by decide) (by decide)
    (by simp [SegmentsMatch]; decide) (by decide) (by decide)

/-- C3 fails for the parameter name `__proto__`: with the only route `/:__proto__`, the
request `/1` resolves to the handler but the params object has no own property, because the
assignment `dynamicParams["__proto__"] = "1"` goes to the inherited accessor, which ignores
a string; the claim asks for the mapping from `__proto__` to `1`. -/
theorem C3_proto_param_dropped :
    (TrieRouter.new.afterAll [reg "/:__proto__" "GET" 7]).findRoute "/1" "GET" =
        .ok ⟨some 7, []⟩ ∧
      expectedParams (normalizePath "/:__proto__") (normalizePath "/1") =
        [("__proto__", "1")] ∧
      (paramNames (normalizePath "/:__proto__")).Nodup := by
  decide

/-! ## Priority at one node (C6) -/

theorem after_reg_at_prefix (r : TrieRouter) (p m : String) (h : Handler) (P : List String)
    (s : String) (hm : isHttpMethod m = true)
    (hP : ∀ s ∈ P, s ≠ "*" ∧ startsWithColon s = false)
    (hp : normalizePath p = P ++ [s]) :
    (r.after (reg p m h)).root = atPrefix (fun n => (addRouteLoop m h [s] n).1) P r.root := by
  have := afterAll_single r p m h hm
  simp only [TrieRouter.afterAll, List.foldl] at this
  rw [this, hp, addRouteLoop_append m h [s] (by simp) P _ hP]

theorem perm_three {α : Type} (a b c : α) (l : List α) (hperm : l.Perm [a, b, c]) :
    l = [a, b, c] ∨ l = [b, a, c] ∨ l = [c, b, a] ∨ l = [b, c, a] ∨ l = [c, a, b] ∨
      l = [a, c, b] := by
  have := List.mem_permutations.mpr hperm
  simpa [List.permutations, List.permutationsAux, List.permutationsAux.rec,
    List.permutationsAux2] using this

/-- Priority static > dynamic > wildcard at one node, for every parameter name but
`__proto__`: on a fresh router, in whatever order `P/lit`, `P/:x` and `P/*` are registered
for the same method, `P/lit` resolves to the handler of the literal route with empty params
and `P/v` with `v` other than `lit` resolves to the handler of the dynamic route with params
binding `x` to `v`. -/
theorem priority_at_one_node (pLit pDyn pWild reqLit reqV m : String) (hS hD hW : Handler)
    (P : List String) (lit dyn v : String) (calls : List Call)
    (hm : isHttpMethod m = true) (hP : ∀ s ∈ P, s ≠ "*" ∧ startsWithColon s = false)
    (hlit : lit ≠ "*" ∧ startsWithColon lit = false) (hdyn : startsWithColon dyn = true)
    (hpLit : normalizePath pLit = P ++ [lit]) (hpDyn : normalizePath pDyn = P ++ [dyn])
    (hpWild : normalizePath pWild = P ++ ["*"])
    (hperm : calls.Perm [reg pLit m hS, reg pDyn m hD, reg pWild m hW])
    (hreqLit : normalizePath reqLit = P ++ [lit]) (hreqV : normalizePath reqV = P ++ [v])
    (hv : v ≠ lit) (hproto : substring1 dyn ≠ "__proto__") :
    (TrieRouter.new.afterAll calls).findRoute reqLit m = .ok ⟨some hS, []⟩ ∧
      (TrieRouter.new.afterAll calls).findRoute reqV m =
        .ok ⟨some hD, [(substring1 dyn, v)]⟩ := by
  have hidem := toUpperCase_idem m hm
  have hL := fun r => after_reg_at_prefix r pLit m hS P lit hm hP hpLit
  have hDy := fun r => after_reg_at_prefix r pDyn m hD P dyn hm hP hpDyn
  have hW := fun r => after_reg_at_prefix r pWild m hW P "*" hm hP hpWild
  have hdynstar : dyn ≠ "*" := by
    intro e
    rw [e] at hdyn
    exact absurd hdyn (by decide)
  have hlitdyn : lit ≠ dyn := by
    intro e
    rw [e, hdyn] at hlit
    exact absurd hlit.2 (by decide)
  have hlitv : lit ≠ v := fun e => hv e.symm
  have hstarlit : "*" ≠ lit := fun e => hlit.1 e.symm
  rw [findRoute_of_valid _ reqLit m hm, findRoute_of_valid _ reqV m hm, hreqLit, hreqV]
  rcases perm_three _ _ _ calls hperm with h | h | h | h | h | h <;> subst h <;>
    simp only [TrieRouter.afterAll, List.foldl, hL, hDy, hW, atPrefix_atPrefix,
      findRouteLoop_append (toUpperCase m) _ [lit] (by simp) P,
      findRouteLoop_append (toUpperCase m) _ [v] (by simp) P,
      show TrieRouter.new.root = RouteNode.new from rfl, baseAt_new] <;>
    simp [findRouteLoop_cons, findRouteLoop, nextNode, nextParams, addRouteLoop, RouteNode.add,
      RouteNode.new, RouteNode.addHandler, RouteNode.setChild, RouteNode.setDynamicNode,
      mapGet, mapSet, mapHas, orElse, setProperty, hlit.1, hlit.2, hdyn, hdynstar, hlitdyn,
      hlitv, hstarlit, hproto, hidem]

/-- C6 fails for the parameter name `__proto__`: with `/a`, `/:__proto__` and `/*` registered
for `GET` on a fresh router, the request `/b` resolves to the handler of the dynamic route,
and `/a` to the one of the literal route, but the params object of `/b` has no own property
where the claim asks for the binding of `__proto__` to `b`. -/
theorem C6_proto_param_dropped :
    (TrieRouter.new.afterAll
        [reg "/a" "GET" 1, reg "/:__proto__" "GET" 2, reg "/*" "GET" 3]).findRoute "/a" "GET" =
        .ok ⟨some 1, []⟩ ∧
      (TrieRouter.new.afterAll
        [reg "/a" "GET" 1, reg "/:__proto__" "GET" 2, reg "/*" "GET" 3]).findRoute "/b" "GET" =
        .ok ⟨some 2, []⟩ ∧
      (TrieRouter.new.afterAll
        [reg "/a" "GET" 1, reg "/:__proto__" "GET" 2, reg "/*" "GET" 3]).findRoute "/b" "GET" ≠
        .ok ⟨some 2, [(substring1 ":__proto__", "b")]⟩ := by
  decide

/-! ## Wildcard fallback (C5) -/

/-- C5 fails on the router holding `/api/*` and `/api/v1/users` for `GET`: the request
`/api/v1/other` extends the prefix `/api` of the wildcard route, the walk records no exact
match, and `findRoute` returns no handler, because the iteration at node `v1` overwrites the
fallback taken from node `api` with the missing wildcard handler of `v1`. -/
theorem C5_ancestor_wildcard_lost :
    (TrieRouter.new.addRoute (.string "/api/*") (.string "GET") (.function 1)).2 = .ok () ∧
      ((TrieRouter.new.afterAll [reg "/api/*" "GET" 1]).addRoute
        (.string "/api/v1/users") (.string "GET") (.function 2)).2 = .ok () ∧
      (TrieRouter.new.afterAll [reg "/api/*" "GET" 1]).findRoute "/api/v1/other" "GET" =
        .ok ⟨some 1, []⟩ ∧
      (TrieRouter.new.afterAll
        [reg "/api/*" "GET" 1, reg "/api/v1/users" "GET" 2]).findRoute "/api/v1/other" "GET" =
        .ok ⟨none, []⟩ := by
  decide

/-! ## Routes below a dynamic segment (C8) -/

/-- C8 fails on its own examples: after `addRoute('/users/:id', 'GET', h1)`, the request
`/users/5` resolves to `h1`; after a further `addRoute('/users/:id/posts', 'GET', h2)`, or a
further `addRoute('/users/:id', 'POST', h3)`, it resolves to no handler, because
`RouteNode.add` puts a new node into `dynamicChild` at every call. -/
theorem C8_dynamic_child_replaced :
    (TrieRouter.new.afterAll [reg "/users/:id" "GET" 1]).findRoute "/users/5" "GET" =
        .ok ⟨some 1, [("id", "5")]⟩ ∧
      ((TrieRouter.new.afterAll [reg "/users/:id" "GET" 1]).addRoute
        (.string "/users/:id/posts") (.string "GET") (.function 2)).2 = .ok () ∧
      (TrieRouter.new.afterAll
        [reg "/users/:id" "GET" 1, reg "/users/:id/posts" "GET" 2]).findRoute "/users/5" "GET" =
        .ok ⟨none, [("id", "5")]⟩ ∧
      ((TrieRouter.new.afterAll [reg "/users/:id" "GET" 1]).addRoute
        (.string "/users/:id") (.string "POST") (.function 3)).2 = .ok () ∧
      (TrieRouter.new.afterAll
        [reg "/users/:id" "GET" 1, reg "/users/:id" "POST" 3]).findRoute "/users/5" "GET" =
        .ok ⟨none, [("id", "5")]⟩ := by
  decide

/-! ## Failed registrations (C9) -/

/-- A call that throws for its argument types or for its method leaves the router as it
was. -/
theorem addRoute_unchanged_of_early_error (r : TrieRouter) (path method handler : JSValue)
    (herr : (r.addRoute path method handler).2 = .error .invalidArgument ∨
      (r.addRoute path method handler).2 = .error .invalidMethod) :
    (r.addRoute path method handler).1 = r := by
  rcases after_root r ⟨path, method, handler⟩ with hsame | ⟨p, m, h, hm, hc, _⟩
  · have : (r.addRoute path method handler).1.root = r.root := hsame
    cases hres : (r.addRoute path method handler).1
    rw [hres] at this
    cases r
    simp_all
  · simp only [reg, Call.mk.injEq] at hc
    obtain ⟨rfl, rfl, rfl⟩ := hc
    rw [addRoute_of_valid r p m h hm] at herr
    cases hloop : (addRouteLoop m h (normalizePath p) r.root).2 with
    | none => simp [hloop] at herr
    | some e =>
      have hsome : ∀ (segs : List String) (node : RouteNode) (e : RouterError),
          (addRouteLoop m h segs node).2 = some e → e = .wildcardNotLast := by
        intro segs
        induction segs with
        | nil => intro node e he; simp [addRouteLoop] at he
        | cons seg rest ih =>
          intro node e he
          by_cases hstar : seg = "*"
          · subst hstar
            obtain ⟨c, hd, w, d⟩ := node
            cases hc : mapGet c "*" with
            | some n =>
              simp only [addRouteLoop, RouteNode.children_mk, hc] at he
              exact ih _ e he
            | none =>
              cases hl : rest.isEmpty <;>
                simp [addRouteLoop, hc, RouteNode.add, hl] at he
              exact he.symm
          · rw [addRouteLoop_cons m h seg rest node hstar] at he
            exact ih _ e he
      have := hsome _ _ e hloop
      subst this
      simp [hloop] at herr

/-- C9 fails for the wildcard error: on the router holding `/:x` for `GET`, the call
`addRoute('/a/*/b', 'GET', h)` throws "'*' wildcard should be the last." after it has created
the literal child `a` of the root; the request `/a`, which resolved to the handler of `/:x`
with params binding `x` to `a` before the call, resolves to no handler after it. -/
theorem C9_failed_registration_changes_lookup :
    ((TrieRouter.new.afterAll [reg "/:x" "GET" 1]).addRoute
        (.string "/a/*/b") (.string "GET") (.function 2)).2 = .error .wildcardNotLast ∧
      (TrieRouter.new.afterAll [reg "/:x" "GET" 1]).findRoute "/a" "GET" =
        .ok ⟨some 1, [("x", "a")]⟩ ∧
      ((TrieRouter.new.afterAll [reg "/:x" "GET" 1]).addRoute
        (.string "/a/*/b") (.string "GET") (.function 2)).1.findRoute "/a" "GET" =
        .ok ⟨none, []⟩ := by
  decide

/-! ## Invalid method (C11) -/

theorem addRoute_of_invalid_method (r : TrieRouter) (p m : String) (h : Handler)
    (hm : isHttpMethod m = false) :
    r.addRoute (.string p) (.string m) (.function h) = (r, .error .invalidMethod) := by
  simp [TrieRouter.addRoute, hm]

/-- The only error the loop of `addRoute` throws is the wildcard error. -/
theorem addRouteLoop_error (m : String) (h : Handler) :
    ∀ (segs : List String) (node : RouteNode) (e : RouterError),
      (addRouteLoop m h segs node).2 = some e → e = .wildcardNotLast := by
  intro segs
  induction segs with
  | nil => intro node e he; simp [addRouteLoop] at he
  | cons seg rest ih =>
    intro node e he
    by_cases hstar : seg = "*"
    · subst hstar
      obtain ⟨c, hd, w, d⟩ := node
      cases hc : mapGet c "*" with
      | some n =>
        simp only [addRouteLoop, RouteNode.children_mk, hc] at he
        exact ih _ e he
      | none =>
        cases hl : rest.isEmpty <;>
          simp [addRouteLoop, hc, RouteNode.add, hl] at he
        exact he.symm
    · rw [addRouteLoop_cons m h seg rest node hstar] at he
      exact ih _ e he

theorem addRoute_valid_outcome (r : TrieRouter) (p m : String) (h : Handler)
    (hm : isHttpMethod m = true) :
    (r.addRoute (.string p) (.string m) (.function h)).2 = .ok () ∨
      (r.addRoute (.string p) (.string m) (.function h)).2 = .error .wildcardNotLast := by
  rw [addRoute_of_valid r p m h hm]
  cases hloop : (addRouteLoop m h (normalizePath p) r.root).2 with
  | none => simp
  | some e =>
    have := addRouteLoop_error m h _ _ e hloop
    subst this
    simp

/-- C11: for every router state, string path, string method and function handler,
`findRoute` throws "Invalid HTTP method" if and only if the upper-cased method is not one of
the nine keys of `HTTP_METHODS`, and returns a result otherwise; `addRoute` throws that error
under the same condition, and then leaves the router exactly as it was. -/
theorem C11_invalid_method (r : TrieRouter) (path method : String) (h : Handler) :
    (r.findRoute path method = .error .invalidMethod ↔ toUpperCase method ∉ HTTP_METHODS) ∧
      (toUpperCase method ∈ HTTP_METHODS → ∃ res, r.findRoute path method = .ok res) ∧
      ((r.addRoute (.string path) (.string method) (.function h)).2 = .error .invalidMethod ↔
        toUpperCase method ∉ HTTP_METHODS) ∧
      (toUpperCase method ∉ HTTP_METHODS →
        (r.addRoute (.string path) (.string method) (.function h)).1 = r) ∧
      RouterError.invalidMethod.message = "Invalid HTTP method" := by
  cases hm : isHttpMethod method with
  | false =>
    have hnot : toUpperCase method ∉ HTTP_METHODS := by
      simpa [isHttpMethod] using hm
    refine ⟨?_, fun hin => absurd hin hnot, ?_, ?_, rfl⟩
    · simp [TrieRouter.findRoute, hm, hnot]
    · simp [addRoute_of_invalid_method r path method h hm, hnot]
    · simp [addRoute_of_invalid_method r path method h hm]
  | true =>
    have hin : toUpperCase method ∈ HTTP_METHODS := by
      simpa [isHttpMethod] using hm
    refine ⟨?_, fun _ => ⟨_, findRoute_of_valid r path method hm⟩, ?_,
      fun hnot => absurd hin hnot, rfl⟩
    · simp [findRoute_of_valid r path method hm, hin]
    · rcases addRoute_valid_outcome r path method h hm with hok | herr
      · simp [hok, hin]
      · simp [herr, hin]

/-- C11 for the method `FETCH` on a router holding a route. -/
theorem C11_invalid_method_witness :
    ((TrieRouter.new.afterAll [reg "/a" "GET" 1]).findRoute "/a" "FETCH" =
        .error .invalidMethod ↔ toUpperCase "FETCH" ∉ HTTP_METHODS) ∧
      (toUpperCase "FETCH" ∈ HTTP_METHODS →
        ∃ res, (TrieRouter.new.afterAll [reg "/a" "GET" 1]).findRoute "/a" "FETCH" = .ok res) ∧
      (((TrieRouter.new.afterAll [reg "/a" "GET" 1]).addRoute
        (.string "/a") (.string "FETCH") (.function 2)).2 = .error .invalidMethod ↔
        toUpperCase "FETCH" ∉ HTTP_METHODS) ∧
      (toUpperCase "FETCH" ∉ HTTP_METHODS →
        ((TrieRouter.new.afterAll [reg "/a" "GET" 1]).addRoute
          (.string "/a") (.string "FETCH") (.function 2)).1 =
          TrieRouter.new.afterAll [reg "/a" "GET" 1]) ∧
      RouterError.invalidMethod.message = "Invalid HTTP method" :=
  C11_invalid_method _ "/a" "FETCH" 2

/-! ## Path normalization (C16) -/

theorem keepSegment_eq (piece : String) : keepSegment piece = decide (piece ≠ "") := by
  obtain ⟨l⟩ := piece
  cases l with
  | nil => simp [keepSegment, truthy]
  | cons c cs =>
    have hne : (⟨c :: cs⟩ : String) ≠ "" := by
      intro e
      have := congrArg String.data e
      simp at this
    cases hcol : startsWithColon ⟨c :: cs⟩ <;>
      simp [keepSegment, truthy, toLowerCase, hcol, hne]

theorem normalizePath_eq_nonEmptyPieces (path : String) :
    normalizePath path = nonEmptyPieces path := by
  unfold normalizePath nonEmptyPieces
  congr 1
  funext piece
  exact keepSegment_eq piece

theorem addRoute_path_congr (r : TrieRouter) (p1 p2 : String) (method handler : JSValue)
    (hsame : normalizePath p1 = normalizePath p2) :
    r.addRoute (.string p1) method handler = r.addRoute (.string p2) method handler := by
  cases handler <;> cases method <;> simp [TrieRouter.addRoute, hsame]

/-- C16: `normalizePath(path)` is exactly the list of the non-empty pieces of `path` split on
`/`, in their order and unchanged; hence two path strings with the same non-empty pieces
give the same router after `addRoute` (with the same outcome) and the same result of
`findRoute`, whatever the other arguments. -/
theorem C16_normalization_is_filtering (r : TrieRouter) (p1 p2 m : String)
    (method handler : JSValue) (hsame : nonEmptyPieces p1 = nonEmptyPieces p2) :
    normalizePath p1 = nonEmptyPieces p1 ∧
      r.addRoute (.string p1) method handler = r.addRoute (.string p2) method handler ∧
      r.findRoute p1 m = r.findRoute p2 m := by
  have hnorm : normalizePath p1 = normalizePath p2 := by
    rw [normalizePath_eq_nonEmptyPieces, normalizePath_eq_nonEmptyPieces, hsame]
  refine ⟨normalizePath_eq_nonEmptyPieces p1, addRoute_path_congr r p1 p2 method handler hnorm,
    ?_⟩
  simp [TrieRouter.findRoute, hnorm]

/-- C16 for the paths `/a//b/` and `a/b`. -/
theorem C16_normalization_is_filtering_witness :
    normalizePath "/a//b/" = nonEmptyPieces "/a//b/" ∧
      (TrieRouter.new.afterAll [reg "/a/:x" "GET" 1]).addRoute
          (.string "/a//b/") (.string "GET") (.function 2) =
        (TrieRouter.new.afterAll [reg "/a/:x" "GET" 1]).addRoute
          (.string "a/b") (.string "GET") (.function 2) ∧
      (TrieRouter.new.afterAll [reg "/a/:x" "GET" 1]).findRoute "/a//b/" "GET" =
        (TrieRouter.new.afterAll [reg "/a/:x" "GET" 1]).findRoute "a/b" "GET" :=
  C16_normalization_is_filtering _ "/a//b/" "a/b" "GET" (.string "GET") (.function 2)
    (by decide)

/-! ## The root (C17) -/

theorem afterAll_root_handler (calls : List Call) :
    ∀ (r : TrieRouter), (r.afterAll calls).root.handler = r.root.handler := by
  induction calls with
  | nil => intro r; rfl
  | cons c cs ih =>
    intro r
    have hstep : (r.after c).root.handler = r.root.handler := by
      rcases after_root r c with hsame | ⟨p, m, h, _, _, hroot⟩
      · rw [hsame]
      · rw [hroot, addRouteLoop_handler]
    have := ih (r.after c)
    simp only [TrieRouter.afterAll, List.foldl_cons] at this ⊢
    rw [this, hstep]

/-- C17: in every router state reached from a fresh router by any sequence of `addRoute`
calls, the handler map of the root is empty; and `findRoute` on a path that normalizes to
zero segments returns no handler and empty params, for every recognized method. -/
theorem C17_root_never_terminus (calls : List Call) (path m : String)
    (hm : isHttpMethod m = true) (hzero : normalizePath path = []) :
    (TrieRouter.new.afterAll calls).root.handler = [] ∧
      (TrieRouter.new.afterAll calls).findRoute path m = .ok ⟨none, []⟩ := by
  refine ⟨?_, ?_⟩
  · rw [afterAll_root_handler]
    rfl
  · rw [findRoute_of_valid _ path m hm, hzero]
    rfl

/-- C17 after `addRoute('/')`, `addRoute('')`, `addRoute('/*')` and a two-segment route, for
the path `//`. -/
theorem C17_root_never_terminus_witness :
    (TrieRouter.new.afterAll
        [reg "/" "GET" 1, reg "" "GET" 2, reg "/*" "GET" 3, reg "/a/b" "GET" 4]).root.handler =
        [] ∧
      (TrieRouter.new.afterAll
        [reg "/" "GET" 1, reg "" "GET" 2, reg "/*" "GET" 3, reg "/a/b" "GET" 4]).findRoute
        "//" "GET" = .ok ⟨none, []⟩ :=
  C17_root_never_terminus _ "//" "GET" (by decide) (by decide)

/-! ## Invalid arguments (C18) -/

/-- C18, as stated, fails at the empty path: `addRoute('', 'GET', h)` passes the `typeof`
checks, walks zero segments and returns without error, leaving the router as it was. -/
theorem C18_empty_path_counterexample :
    TrieRouter.new.addRoute (.string "") (.string "GET") (.function 1) =
        (TrieRouter.new, .ok ()) ∧
      (TrieRouter.new.addRoute (.string "") (.string "GET") (.function 1)).2 ≠
        .error .invalidArgument :=
  ⟨rfl, by decide⟩

/-- C18 (amended): `addRoute` throws the invalid-argument error exactly when the path is not
a string, the handler is not a function or the method is not a string, and then leaves the
router as it was; the empty path is a string, and `addRoute('', method, handler)` with a
recognized method and a function handler throws nothing and changes nothing. -/
theorem C18_invalid_argument (r : TrieRouter) (path method handler : JSValue) (m : String)
    (h : Handler) (hm : isHttpMethod m = true) :
    ((r.addRoute path method handler).2 = .error .invalidArgument ↔
        ¬ (path.isString = true ∧ handler.isFunction = true ∧ method.isString = true)) ∧
      ((r.addRoute path method handler).2 = .error .invalidArgument →
        (r.addRoute path method handler).1 = r) ∧
      r.addRoute (.string "") (.string m) (.function h) = (r, .ok ()) := by
  refine ⟨?_, fun herr => addRoute_unchanged_of_early_error r path method handler (Or.inl herr),
    ?_⟩
  · cases path with
    | function f => simp [TrieRouter.addRoute, JSValue.isString]
    | other t => simp [TrieRouter.addRoute, JSValue.isString]
    | string p =>
      cases handler with
      | string s => simp [TrieRouter.addRoute, JSValue.isFunction]
      | other t => simp [TrieRouter.addRoute, JSValue.isFunction]
      | function f =>
        cases method with
        | function g => simp [TrieRouter.addRoute, JSValue.isString]
        | other t => simp [TrieRouter.addRoute, JSValue.isString]
        | string m0 =>
          cases hm0 : isHttpMethod m0 with
          | false =>
            simp [addRoute_of_invalid_method r p m0 f hm0, JSValue.isString,
              JSValue.isFunction]
          | true =>
            rcases addRoute_valid_outcome r p m0 f hm0 with hok | herr
            · simp [hok, JSValue.isString, JSValue.isFunction]
            · simp [herr, JSValue.isString, JSValue.isFunction]
  · rw [addRoute_of_valid r "" m h hm]
    have hempty : normalizePath "" = [] := by decide
    simp [hempty, addRouteLoop]

/-- C18 (amended) for a number as path, on a router holding a route. -/
theorem C18_invalid_argument_witness :
    (((TrieRouter.new.afterAll [reg "/a" "GET" 1]).addRoute
        (.other 0) (.string "GET") (.function 2)).2 = .error .invalidArgument ↔
        ¬ ((JSValue.other 0).isString = true ∧ (JSValue.function 2).isFunction = true ∧
          (JSValue.string "GET").isString = true)) ∧
      (((TrieRouter.new.afterAll [reg "/a" "GET" 1]).addRoute
        (.other 0) (.string "GET") (.function 2)).2 = .error .invalidArgument →
        ((TrieRouter.new.afterAll [reg "/a" "GET" 1]).addRoute
          (.other 0) (.string "GET") (.function 2)).1 =
          TrieRouter.new.afterAll [reg "/a" "GET" 1]) ∧
      (TrieRouter.new.afterAll [reg "/a" "GET" 1]).addRoute
          (.string "") (.string "GET") (.function 3) =
        (TrieRouter.new.afterAll [reg "/a" "GET" 1], .ok ()) :=
  C18_invalid_argument _ (.other 0) (.string "GET") (.function 2) "GET" 3 (by decide)

/-! ## Letter case of literal segments (C15) -/

/-- C15 fails: after `addRoute('/API/Books', 'GET', h)` on a fresh router, the request
`/api/books`, whose segments equal those of the route up to letter case, resolves to no
handler, while `/API/Books` resolves to `h`: the callback of `filter` in `#normalizePath`
returns the lower-cased segment, which `filter` only tests for truthiness, so segments are
stored and compared as written. -/
theorem C15_literals_case_sensitive :
    (normalizePath "/API/Books").map toLowerCase =
        (normalizePath "/api/books").map toLowerCase ∧
      (TrieRouter.new.addRoute (.string "/API/Books") (.string "GET") (.function 1)).2 =
        .ok () ∧
      (TrieRouter.new.afterAll [reg "/API/Books" "GET" 1]).findRoute "/API/Books" "GET" =
        .ok ⟨some 1, []⟩ ∧
      (TrieRouter.new.afterAll [reg "/API/Books" "GET" 1]).findRoute "/api/books" "GET" =
        .ok ⟨none, []⟩ ∧
      normalizePath "/API/Books" = ["API", "Books"] := by
  decide

/-! ## No backtracking (C20) -/

/-- C20: after the successful registrations `addRoute('/users/:id', 'GET', h1)` and
`addRoute('/users/me/profile', 'GET', h2)`, the route `/users/:id` matches the request
`/users/me` segment by segment (and resolved it to `h1` before the second registration), yet
`findRoute('/users/me', 'GET')` returns no handler and empty params: the literal child `me`
is taken, it holds no handler, and the dynamic child of the same node is not tried. -/
theorem C20_lookup_never_backtracks :
    (TrieRouter.new.addRoute (.string "/users/:id") (.string "GET") (.function 1)).2 =
        .ok () ∧
      ((TrieRouter.new.afterAll [reg "/users/:id" "GET" 1]).addRoute
        (.string "/users/me/profile") (.string "GET") (.function 2)).2 = .ok () ∧
      SegmentsMatch (normalizePath "/users/:id") (normalizePath "/users/me") ∧
      (TrieRouter.new.afterAll [reg "/users/:id" "GET" 1]).findRoute "/users/me" "GET" =
        .ok ⟨some 1, [("id", "me")]⟩ ∧
      (TrieRouter.new.afterAll
        [reg "/users/:id" "GET" 1, reg "/users/me/profile" "GET" 2]).findRoute
        "/users/me" "GET" = .ok ⟨none, []⟩ := by
  refine ⟨by decide, by decide, ?_, by decide, by decide⟩
  have h1 : normalizePath "/users/:id" = ["users", ":id"] := by decide
  have h2 : normalizePath "/users/me" = ["users", "me"] := by decide
  rw [h1, h2]
  exact List.Forall₂.cons (Or.inr rfl) (List.Forall₂.cons (Or.inl (by decide)) List.Forall₂.nil)

/-! ## Letter case of methods (C12) -/

/-- The loop of `addRoute` uses the method only through its upper-case form. -/
theorem addRouteLoop_method_congr (m1 m2 : String) (h : Handler)
    (hup : toUpperCase m1 = toUpperCase m2) :
    ∀ (segs : List String) (node : RouteNode),
      addRouteLoop m1 h segs node = addRouteLoop m2 h segs node := by
  intro segs
  induction segs with
  | nil => intro node; rfl
  | cons seg rest ih =>
    intro node
    have hadd : ∀ (n : RouteNode), n.addHandler m1 h = n.addHandler m2 h := by
      intro n
      simp [RouteNode.addHandler, hup]
    cases hc : mapGet node.children seg with
    | some found => simp [addRouteLoop, hc, hadd, ih]
    | none => simp [addRouteLoop, hc, RouteNode.add, hup, ih]

theorem mem_mapSet_key {V : Type} (m : List (String × V)) (k k1 : String) (v v1 : V)
    (hmem : (k1, v1) ∈ mapSet m k v) : (k1, v1) ∈ m ∨ (k1 = k ∧ v1 = v) := by
  induction m with
  | nil =>
    simp [mapSet] at hmem
    exact Or.inr hmem
  | cons kv rest ih =>
    obtain ⟨k2, w⟩ := kv
    by_cases hk : k2 = k
    · simp [mapSet, hk] at hmem
      rcases hmem with hnew | hmem
      · exact Or.inr hnew
      · exact Or.inl (List.mem_cons_of_mem _ hmem)
    · simp [mapSet, hk] at hmem
      rcases hmem with ⟨hk1, hv⟩ | hmem
      · left
        simp [hk1, hv]
      · rcases ih hmem with hin | hnew
        · exact Or.inl (List.mem_cons_of_mem _ hin)
        · exact Or.inr hnew

theorem WellKeyed.wk_new (K N : String → Prop) : WellKeyed K N RouteNode.new :=
  WellKeyed.mk [] [] [] none (fun _ _ hmem => by simp at hmem) (fun _ _ hmem => by simp at hmem)
    (fun _ _ hmem => by simp at hmem) (fun _ _ hd => by simp at hd)
    (fun _ _ hd => by simp at hd)

theorem WellKeyed.wk_of_child {K N : String → Prop} {node : RouteNode} (hwk : WellKeyed K N node)
    (k : String) (n : RouteNode) (hget : mapGet node.children k = some n) :
    WellKeyed K N n := by
  cases hwk with
  | mk c hd w d _ _ hch _ _ => exact hch k n (mem_of_mapGet c k n (by simpa using hget))

theorem WellKeyed.wk_addHandler {K N : String → Prop} {node : RouteNode}
    (hwk : WellKeyed K N node) (m : String) (h : Handler) (hK : K (toUpperCase m)) :
    WellKeyed K N (node.addHandler m h) := by
  cases hwk with
  | mk c hd w d hh hw hch hname hdyn =>
    refine WellKeyed.mk c _ w d ?_ hw hch hname hdyn
    intro k v hmem
    rcases mem_mapSet_key hd _ k h v (by simpa using hmem) with hin | hnew
    · exact hh k v hin
    · exact hnew.1 ▸ hK

theorem WellKeyed.wk_addStart {K N : String → Prop} {node : RouteNode}
    (hwk : WellKeyed K N node) (m : String) (h : Handler) (seg : String) (isLast : Bool)
    (hK : K (toUpperCase m)) (hK2 : K (toUpperCase (toUpperCase m))) :
    WellKeyed K N (addStart m h node seg isLast) := by
  unfold Velocy.addStart
  cases hc : mapGet node.children seg with
  | some n =>
    have hn := hwk.wk_of_child seg n hc
    cases isLast
    · simpa using hn
    · simpa using hn.wk_addHandler m h hK
  | none =>
    cases isLast
    · simpa using WellKeyed.wk_new K N
    · simpa using (WellKeyed.wk_new K N).wk_addHandler (toUpperCase m) h hK2

theorem WellKeyed.wk_link {K N : String → Prop} {node child : RouteNode}
    (hwk : WellKeyed K N node) (hchild : WellKeyed K N child) (seg : String)
    (hN : startsWithColon seg = true → N (substring1 seg)) :
    WellKeyed K N (link node seg child) := by
  cases hwk with
  | mk c hd w d hh hw hch hname hdyn =>
    unfold Velocy.link
    split
    · refine WellKeyed.mk _ hd w d hh hw ?_ hname hdyn
      intro k n hmem
      rcases mem_mapSet c seg k child n (by simpa using hmem) with hin | hn
      · exact hch k n hin
      · exact hn ▸ hchild
    · rename_i hcond
      have hcol : startsWithColon seg = true := by
        simp only [RouteNode.children_mk, Bool.or_eq_true, not_or] at hcond
        simpa using hcond.2
      refine WellKeyed.mk c hd w _ hh hw hch ?_ ?_
      · intro name n hsome
        simp only [Option.some.injEq, Prod.mk.injEq] at hsome
        exact hsome.1 ▸ hN hcol
      · intro name n hsome
        simp only [Option.some.injEq, Prod.mk.injEq] at hsome
        exact hsome.2 ▸ hchild

/-- The loop of `addRoute` only adds the keys `toUpperCase method` to handler maps and the
names of the dynamic segments it walks to `dynamicChild` slots. -/
theorem WellKeyed.wk_addRouteLoop {K N : String → Prop} (m : String) (h : Handler)
    (hK : K (toUpperCase m)) (hK2 : K (toUpperCase (toUpperCase m))) :
    ∀ (segs : List String) (node : RouteNode),
      (∀ s ∈ segs, startsWithColon s = true → N (substring1 s)) → WellKeyed K N node →
      WellKeyed K N (addRouteLoop m h segs node).1 := by
  intro segs
  induction segs with
  | nil => intro node _ hwk; simpa [Velocy.addRouteLoop] using hwk
  | cons seg rest ih =>
    intro node hN hwk
    have hrest : ∀ s ∈ rest, startsWithColon s = true → N (substring1 s) :=
      fun s hs => hN s (List.mem_cons_of_mem _ hs)
    by_cases hstar : seg = "*"
    · subst hstar
      cases hc : mapGet node.children "*" with
      | some found =>
        have hfound := hwk.wk_of_child "*" found hc
        have hcur : WellKeyed K N (if rest.isEmpty then found.addHandler m h else found) := by
          split
          · exact hfound.wk_addHandler m h hK
          · exact hfound
        have hnext := ih _ hrest hcur
        cases hwk with
        | mk c hd w d hh hw hch hname hdyn =>
          simp only [RouteNode.children_mk] at hc
          simp only [Velocy.addRouteLoop, RouteNode.children_mk, hc, RouteNode.setChild,
            RouteNode.handler_mk, RouteNode.wildCardHandlers_mk, RouteNode.dynamicChild_mk]
          refine WellKeyed.mk _ hd w d hh hw ?_ hname hdyn
          intro k n hmem
          rcases mem_mapSet c "*" k _ n hmem with hin | hn
          · exact hch k n hin
          · exact hn ▸ hnext
      | none =>
        cases hwk with
        | mk c hd w d hh hw hch hname hdyn =>
          simp only [RouteNode.children_mk] at hc
          cases hl : rest.isEmpty
          · simpa [Velocy.addRouteLoop, hc, RouteNode.add, hl] using
              WellKeyed.mk c hd w d hh hw hch hname hdyn
          · have hw2 : ∀ k v, (k, v) ∈ mapSet w (toUpperCase m) h → K k := by
              intro k v hmem
              rcases mem_mapSet_key w _ k h v hmem with hin | hnew
              · exact hw k v hin
              · exact hnew.1 ▸ hK
            simpa [Velocy.addRouteLoop, hc, RouteNode.add, hl] using
              WellKeyed.mk c hd _ d hh hw2 hch hname hdyn
    · rw [addRouteLoop_cons m h seg rest node hstar]
      exact hwk.wk_link (ih _ hrest (hwk.wk_addStart m h seg _ hK hK2)) seg
        (hN seg (List.mem_cons_self _ _))

theorem WellKeyed.of_nextNode {K N : String → Prop} {node : RouteNode}
    (hwk : WellKeyed K N node) (seg : String) (n : RouteNode)
    (hnext : nextNode node seg = some n) : WellKeyed K N n := by
  cases hc : mapGet node.children seg with
  | some found =>
    have : found = n := by simpa [nextNode, hc] using hnext
    exact this ▸ hwk.wk_of_child seg found hc
  | none =>
    cases hwk with
    | mk c hd w d _ _ _ _ hdyn =>
      simp only [RouteNode.children_mk] at hc
      cases d with
      | none => simp [nextNode, hc] at hnext
      | some pn =>
        obtain ⟨name, dn⟩ := pn
        have : dn = n := by simpa [nextNode, hc] using hnext
        exact this ▸ hdyn name dn rfl

theorem WellKeyed.handler_key {K N : String → Prop} {node : RouteNode}
    (hwk : WellKeyed K N node) (k : String) (v : Handler)
    (hget : mapGet node.handler k = some v) : K k := by
  cases hwk with
  | mk c hd w d hh _ _ _ _ => exact hh k v (mem_of_mapGet hd k v (by simpa using hget))

theorem WellKeyed.wildcard_key {K N : String → Prop} {node : RouteNode}
    (hwk : WellKeyed K N node) (k : String) (v : Handler)
    (hget : mapGet node.wildCardHandlers k = some v) : K k := by
  cases hwk with
  | mk c hd w d _ hw _ _ _ => exact hw k v (mem_of_mapGet w k v (by simpa using hget))

theorem mem_paramNames (segs : List String) (s : String) (hs : s ∈ segs)
    (hcol : startsWithColon s = true) : substring1 s ∈ paramNames segs := by
  simp only [paramNames, List.mem_map, List.mem_filter]
  exact ⟨s, ⟨hs, hcol⟩, rfl⟩

theorem WellKeyed.wk_after {K N : String → Prop} {r : TrieRouter} (hwk : WellKeyed K N r.root)
    (c : Call)
    (hK : ∀ m, c.method = .string m → isHttpMethod m = true → K (toUpperCase m))
    (hN : ∀ name ∈ c.paramNames, N name) : WellKeyed K N (r.after c).root := by
  rcases after_root r c with hsame | ⟨p, m, h, hm, hc, hroot⟩
  · rw [hsame]
    exact hwk
  · rw [hroot]
    subst hc
    have hKm := hK m rfl hm
    refine WellKeyed.wk_addRouteLoop m h hKm (by rw [toUpperCase_idem m hm]; exact hKm) _ _ ?_ hwk
    intro s hs hcol
    exact hN _ (by simpa [Call.paramNames, reg] using mem_paramNames _ s hs hcol)

/-- Every router state reached from a fresh router holds only the method keys and parameter
names that its calls brought in. -/
theorem WellKeyed.wk_afterAll {K N : String → Prop} (calls : List Call)
    (hK : ∀ c ∈ calls, ∀ m, c.method = .string m → isHttpMethod m = true → K (toUpperCase m))
    (hN : ∀ c ∈ calls, ∀ name ∈ c.paramNames, N name) :
    ∀ (r : TrieRouter), WellKeyed K N r.root → WellKeyed K N (r.afterAll calls).root := by
  induction calls with
  | nil => intro r hwk; simpa [TrieRouter.afterAll] using hwk
  | cons c cs ih =>
    intro r hwk
    have hstep := hwk.wk_after c (hK c (List.mem_cons_self _ _)) (hN c (List.mem_cons_self _ _))
    have := ih (fun c1 h1 => hK c1 (List.mem_cons_of_mem _ h1))
      (fun c1 h1 => hN c1 (List.mem_cons_of_mem _ h1)) (r.after c) hstep
    simpa [TrieRouter.afterAll] using this

/-! ## Methods never registered (C13) -/

/-- In a tree without the key `M`, the loop of `findRoute` for `M` records no handler and no
fallback. -/
theorem findRouteLoop_of_no_key (M : String) (N : String → Prop) :
    ∀ (segs : List String) (node : RouteNode) (st : FindState),
      WellKeyed (fun k => k ≠ M) N node →
      (findRouteLoop M segs node st).handler = st.handler ∧
        (segs ≠ [] → (findRouteLoop M segs node st).fallBackHandler = none) := by
  intro segs
  induction segs with
  | nil => intro node st _; simp [findRouteLoop]
  | cons seg rest ih =>
    intro node st hwk
    have hw : mapGet node.wildCardHandlers M = none := by
      cases hget : mapGet node.wildCardHandlers M with
      | none => rfl
      | some v => exact absurd rfl (hwk.wildcard_key M v hget)
    rw [findRouteLoop_cons]
    cases hnext : nextNode node seg with
    | none => simp [hw]
    | some n =>
      have hn := hwk.of_nextNode seg n hnext
      have hh : mapGet n.handler M = none := by
        cases hget : mapGet n.handler M with
        | none => rfl
        | some v => exact absurd rfl (hn.handler_key M v hget)
      cases rest with
      | nil => simp [mapHas, hh, hw]
      | cons s2 rest2 =>
        have := ih n ⟨st.handler, nextParams node seg st.dynamicParams, none⟩ hn
        simpa [hw] using this

/-- C13: after any sequence of `addRoute` calls on a fresh router none of which used a method
that upper-cases like the recognized method `m`, `findRoute(path, m)` returns no handler for
every path. -/
theorem C13_unregistered_method (calls : List Call) (path m : String)
    (hm : isHttpMethod m = true)
    (hnever : ∀ c ∈ calls, ∀ m1, c.method = .string m1 → toUpperCase m1 ≠ toUpperCase m) :
    ((TrieRouter.new.afterAll calls).findRoute path m).map RouteMatch.handler = .ok none := by
  have hwk : WellKeyed (fun k => k ≠ toUpperCase m) (fun _ => True)
      (TrieRouter.new.afterAll calls).root :=
    WellKeyed.wk_afterAll calls (fun c hc m1 hm1 _ => hnever c hc m1 hm1)
      (fun _ _ _ _ => trivial) TrieRouter.new (WellKeyed.wk_new _ _)
  have hloop := findRouteLoop_of_no_key (toUpperCase m) (fun _ => True) (normalizePath path)
    (TrieRouter.new.afterAll calls).root ⟨none, [], none⟩ hwk
  rw [findRoute_of_valid _ path m hm, hloop.1]
  cases hsegs : normalizePath path with
  | nil => simp [findRouteLoop, orElse, Except.map]
  | cons s rest =>
    have := hloop.2 (by simp [hsegs])
    rw [hsegs] at this
    simp [this, orElse, Except.map]

/-- C13 for `POST` on a router holding routes and a wildcard for `GET` and `PUT`. -/
theorem C13_unregistered_method_witness :
    ((TrieRouter.new.afterAll
        [reg "/a/b" "GET" 1, reg "/a/*" "get" 2, reg "/a/:x" "PUT" 3]).findRoute
      "/a/b" "POST").map RouteMatch.handler = .ok none :=
  C13_unregistered_method _ "/a/b" "POST" (by decide) (by
    intro c hc m1 hm1
    simp only [List.mem_cons, List.mem_singleton, List.not_mem_nil, or_false] at hc
    rcases hc with rfl | rfl | rfl <;>
      · simp only [reg, JSValue.string.injEq] at hm1
        subst hm1
        decide)

/-- C12: in every router state reached from a fresh router, for method strings `m1` and `m2`
with the same recognized upper-case form, `addRoute(path, m1, h)` and `addRoute(path, m2, h)`
give the same router and outcome, `findRoute(request, m1)` and `findRoute(request, m2)`
return the same result, and every key of every handler map and wildcard handler map of the
router is one of the upper-case method names. -/
theorem C12_methods_case_insensitive (calls : List Call) (path request m1 m2 : String)
    (h : Handler) (hup : toUpperCase m1 = toUpperCase m2) (hm : isHttpMethod m1 = true) :
    (TrieRouter.new.afterAll calls).addRoute (.string path) (.string m1) (.function h) =
        (TrieRouter.new.afterAll calls).addRoute (.string path) (.string m2) (.function h) ∧
      (TrieRouter.new.afterAll calls).findRoute request m1 =
        (TrieRouter.new.afterAll calls).findRoute request m2 ∧
      WellKeyed (fun k => k ∈ HTTP_METHODS) (fun _ => True)
        ((TrieRouter.new.afterAll calls).addRoute
          (.string path) (.string m1) (.function h)).1.root := by
  have hm2 : isHttpMethod m2 = true := by
    simpa [isHttpMethod, hup] using hm
  have hkey : ∀ m, isHttpMethod m = true → toUpperCase m ∈ HTTP_METHODS := by
    intro m hmm
    simpa [isHttpMethod] using hmm
  refine ⟨?_, ?_, ?_⟩
  · rw [addRoute_of_valid _ path m1 h hm, addRoute_of_valid _ path m2 h hm2,
      addRouteLoop_method_congr m1 m2 h hup]
  · rw [findRoute_of_valid _ request m1 hm, findRoute_of_valid _ request m2 hm2, hup]
  · have hwk : WellKeyed (fun k => k ∈ HTTP_METHODS) (fun _ => True)
        (TrieRouter.new.afterAll calls).root :=
      WellKeyed.wk_afterAll calls (fun _ _ m _ hmm => hkey m hmm) (fun _ _ _ _ => trivial)
        TrieRouter.new (WellKeyed.wk_new _ _)
    exact hwk.wk_after (reg path m1 h) (fun m _ hmm => hkey m hmm) (fun _ _ => trivial)

/-- C12 for `get` and `GET` on a router holding `/a/*` registered with `post`: both spellings
give the same router and outcome of `addRoute` and the same result of `findRoute`. -/
theorem C12_methods_case_insensitive_witness :
    (TrieRouter.new.afterAll [reg "/a/*" "post" 1]).addRoute
          (.string "/a/b") (.string "get") (.function 2) =
        (TrieRouter.new.afterAll [reg "/a/*" "post" 1]).addRoute
          (.string "/a/b") (.string "GET") (.function 2) ∧
      (TrieRouter.new.afterAll [reg "/a/*" "post" 1]).findRoute "/a/c" "get" =
        (TrieRouter.new.afterAll [reg "/a/*" "post" 1]).findRoute "/a/c" "GET" ∧
      WellKeyed (fun k => k ∈ HTTP_METHODS) (fun _ => True)
        ((TrieRouter.new.afterAll [reg "/a/*" "post" 1]).addRoute
          (.string "/a/b") (.string "get") (.function 2)).1.root :=
  C12_methods_case_insensitive _ "/a/b" "/a/c" "get" "GET" 2 (by decide) (by decide)

/-! ## Parameters of a lookup (C14) -/

theorem nextParams_mem {K N : String → Prop} {node : RouteNode} (hwk : WellKeyed K N node)
    (seg : String) (params : Params) (kv : String × String)
    (hmem : kv ∈ nextParams node seg params) : kv ∈ params ∨ (N kv.1 ∧ kv.2 = seg) := by
  cases hwk with
  | mk c hd w d _ _ _ hname _ =>
    cases hc : mapGet c seg with
    | some n =>
      left
      simpa [nextParams, hc] using hmem
    | none =>
      cases d with
      | none =>
        left
        simpa [nextParams, hc] using hmem
      | some pn =>
        obtain ⟨name, dn⟩ := pn
        have hN := hname name dn rfl
        simp only [nextParams, RouteNode.children_mk, hc, RouteNode.dynamicChild_mk,
          setProperty] at hmem
        split at hmem
        · exact Or.inl hmem
        · obtain ⟨k, v⟩ := kv
          rcases mem_mapSet_key params name k seg v hmem with hin | hnew
          · exact Or.inl hin
          · exact Or.inr ⟨hnew.1 ▸ hN, hnew.2⟩

/-- Every binding the loop of `findRoute` adds maps the name of a dynamic child of the tree
to one of the segments walked. -/
theorem findRouteLoop_params_mem (M : String) {K N : String → Prop} :
    ∀ (segs : List String) (node : RouteNode) (st : FindState), WellKeyed K N node →
      ∀ kv ∈ (findRouteLoop M segs node st).dynamicParams,
        kv ∈ st.dynamicParams ∨ (N kv.1 ∧ kv.2 ∈ segs) := by
  intro segs
  induction segs with
  | nil => intro node st _ kv hkv; exact Or.inl (by simpa [findRouteLoop] using hkv)
  | cons seg rest ih =>
    intro node st hwk kv hkv
    have hstep : ∀ kv1 ∈ nextParams node seg st.dynamicParams,
        kv1 ∈ st.dynamicParams ∨ (N kv1.1 ∧ kv1.2 ∈ seg :: rest) := by
      intro kv1 h1
      rcases nextParams_mem hwk seg st.dynamicParams kv1 h1 with hin | ⟨hN, hv⟩
      · exact Or.inl hin
      · exact Or.inr ⟨hN, by simp [hv]⟩
    rw [findRouteLoop_cons] at hkv
    cases hnext : nextNode node seg with
    | none =>
      simp only [hnext] at hkv
      exact hstep kv hkv
    | some n =>
      simp only [hnext] at hkv
      split at hkv
      · exact hstep kv hkv
      · rcases ih n _ (hwk.of_nextNode seg n hnext) kv hkv with hin | ⟨hN, hv⟩
        · exact hstep kv hin
        · exact Or.inr ⟨hN, List.mem_cons_of_mem _ hv⟩

/-- C14, as stated, fails: on the router holding `/users/:id` for `GET`, the request
`/users/5` for `POST` returns no handler together with the params binding `id` to `5`; and on
the router holding `/a/*` and `/a/:x/y`, the request `/a/5` returns the handler of `/a/*`,
a route without dynamic segment, together with the params binding `x` to `5`. -/
theorem C14_params_without_match_counterexample :
    (TrieRouter.new.addRoute (.string "/users/:id") (.string "GET") (.function 1)).2 =
        .ok () ∧
      (TrieRouter.new.afterAll [reg "/users/:id" "GET" 1]).findRoute "/users/5" "POST" =
        .ok ⟨none, [("id", "5")]⟩ ∧
      (TrieRouter.new.afterAll [reg "/a/*" "GET" 1, reg "/a/:x/y" "GET" 2]).findRoute
        "/a/5" "GET" = .ok ⟨some 1, [("x", "5")]⟩ ∧
      paramNames (normalizePath "/a/*") = [] := by
  decide

/-- In every router state reached from a fresh router, every binding of the params that
`findRoute` returns maps the name of a dynamic segment of some registered path to a segment
of the request path; the params are empty when no registered path has a dynamic segment. -/
theorem params_names_registered (calls : List Call) (path m : String)
    (res : RouteMatch) (hm : isHttpMethod m = true)
    (hres : (TrieRouter.new.afterAll calls).findRoute path m = .ok res) :
    (∀ kv ∈ res.params,
        (∃ c ∈ calls, kv.1 ∈ c.paramNames) ∧ kv.2 ∈ normalizePath path) ∧
      ((∀ c ∈ calls, c.paramNames = []) → res.params = []) := by
  have hwk : WellKeyed (fun _ => True) (fun name => ∃ c ∈ calls, name ∈ c.paramNames)
      (TrieRouter.new.afterAll calls).root :=
    WellKeyed.wk_afterAll calls (fun _ _ _ _ _ => trivial)
      (fun c hc name hname => ⟨c, hc, hname⟩) TrieRouter.new (WellKeyed.wk_new _ _)
  rw [findRoute_of_valid _ path m hm] at hres
  injection hres with hres
  subst hres
  have hall : ∀ kv ∈ (findRouteLoop (toUpperCase m) (normalizePath path)
      (TrieRouter.new.afterAll calls).root ⟨none, [], none⟩).dynamicParams,
      (∃ c ∈ calls, kv.1 ∈ c.paramNames) ∧ kv.2 ∈ normalizePath path := by
    intro kv hkv
    rcases findRouteLoop_params_mem (toUpperCase m) (normalizePath path) _ ⟨none, [], none⟩ hwk
      kv hkv with hin | hok
    · simp at hin
    · exact hok
  refine ⟨hall, ?_⟩
  intro hnone
  apply List.eq_nil_iff_forall_not_mem.mpr
  intro kv hkv
  obtain ⟨⟨c, hc, hname⟩, _⟩ := hall kv hkv
  rw [hnone c hc] at hname
  simp at hname

/-! ## The fallback that is returned (C19) -/

/-- After at least one iteration, the fallback of the loop of `findRoute` is the wildcard
handler of the node of the last iteration executed, whatever was recorded before. -/
theorem findRouteLoop_fallBack_eq (M : String) :
    ∀ (segs : List String) (node : RouteNode) (st : FindState), segs ≠ [] →
      (findRouteLoop M segs node st).fallBackHandler =
        mapGet (lastCurrent segs node).wildCardHandlers M := by
  intro segs
  induction segs with
  | nil => intro _ _ hne; exact absurd rfl hne
  | cons seg rest ih =>
    intro node st _
    rw [findRouteLoop_cons]
    cases hnext : nextNode node seg with
    | none => simp [lastCurrent, hnext]
    | some n =>
      cases rest with
      | nil =>
        cases hh : mapHas n.handler M <;> simp [lastCurrent, hnext, hh, findRouteLoop]
      | cons s2 rest2 =>
        simp only [lastCurrent, hnext, List.isEmpty_cons, Bool.false_and, Bool.false_eq_true,
          if_false]
        exact ih n _ (by simp)

/-- C19: in every router state, for every recognized method `m` and path with at least one
segment, when the walk of `findRoute` records no exact-match handler, the handler returned
is the wildcard handler for `m` of the node that was `currentNode` in the last iteration
executed, and none when that node has none, whatever the shallower nodes hold; and on a
router holding only `/api/*`, `findRoute('/api', m)` returns no handler. -/
theorem C19_fallback_is_last_current (r : TrieRouter) (path m : String) (h : Handler)
    (hm : isHttpMethod m = true) (hne : normalizePath path ≠ [])
    (hnone : (findRouteLoop (toUpperCase m) (normalizePath path) r.root
      ⟨none, [], none⟩).handler = none) :
    (r.findRoute path m).map RouteMatch.handler =
        .ok (mapGet (lastCurrent (normalizePath path) r.root).wildCardHandlers
          (toUpperCase m)) ∧
      (TrieRouter.new.afterAll [reg "/api/*" m h]).findRoute "/api" m = .ok ⟨none, []⟩ := by
  refine ⟨?_, ?_⟩
  · rw [findRoute_of_valid r path m hm, hnone,
      findRouteLoop_fallBack_eq (toUpperCase m) (normalizePath path) r.root _ hne]
    simp [orElse, Except.map]
  · have hroute : normalizePath "/api/*" = ["api", "*"] := by decide
    have hreq : normalizePath "/api" = ["api"] := by decide
    rw [findRoute_of_valid _ "/api" m hm, afterAll_single _ "/api/*" m h hm, hroute, hreq]
    simp [TrieRouter.new, addRouteLoop, RouteNode.add, RouteNode.new, RouteNode.setChild,
      mapGet, mapSet, findRouteLoop, mapHas, orElse]

/-- C19 on the router holding `/api/*` and `/api/v1/users`, for the request `/api/v1/other`:
the last iteration runs at node `v1`, which has no wildcard handler. -/
theorem C19_fallback_is_last_current_witness :
    ((TrieRouter.new.afterAll [reg "/api/*" "GET" 1, reg "/api/v1/users" "GET" 2]).findRoute
        "/api/v1/other" "GET").map RouteMatch.handler =
        .ok (mapGet (lastCurrent (normalizePath "/api/v1/other")
          (TrieRouter.new.afterAll
            [reg "/api/*" "GET" 1, reg "/api/v1/users" "GET" 2]).root).wildCardHandlers
          (toUpperCase "GET")) ∧
      (TrieRouter.new.afterAll [reg "/api/*" "GET" 7]).findRoute "/api" "GET" =
        .ok ⟨none, []⟩ :=
  C19_fallback_is_last_current _ "/api/v1/other" "GET" 7 (by decide) (by decide) (by decide)

/-! ## The route behind a lookup result -/

theorem colonSeg_substring1 (s : String) (hcol : startsWithColon s = true) :
    colonSeg (substring1 s) = s := by
  obtain ⟨l⟩ := s
  cases l with
  | nil => simp [startsWithColon] at hcol
  | cons c cs =>
    simp only [startsWithColon, beq_iff_eq] at hcol
    subst hcol
    simp [colonSeg, substring1]

theorem startsWithColon_colonSeg (name : String) : startsWithColon (colonSeg name) = true := by
  simp [startsWithColon, colonSeg]

theorem substring1_colonSeg (name : String) : substring1 (colonSeg name) = name := by
  simp [substring1, colonSeg]

theorem addRouteLoop_cons_of_found (m : String) (h : Handler) (seg : String)
    (rest : List String) (node found : RouteNode)
    (hfound : mapGet node.children seg = some found) :
    addRouteLoop m h (seg :: rest) node =
      (link node seg (addRouteLoop m h rest (addStart m h node seg rest.isEmpty)).1,
        (addRouteLoop m h rest (addStart m h node seg rest.isEmpty)).2) := by
  obtain ⟨c, hd, w, d⟩ := node
  simp only [RouteNode.children_mk] at hfound
  simp [addRouteLoop, link, addStart, hfound]

theorem Traceable.tr_new (R : List String → String → Handler → Prop) (pre : List String) :
    Traceable R pre RouteNode.new :=
  Traceable.mk pre [] [] [] none (fun _ _ hmem => by simp at hmem)
    (fun _ _ hmem => by simp at hmem) (fun _ _ hmem => by simp at hmem)
    (fun _ _ hd => by simp at hd)

theorem Traceable.tr_of_child {R : List String → String → Handler → Prop} {pre : List String}
    {node : RouteNode} (htr : Traceable R pre node) (k : String) (n : RouteNode)
    (hget : mapGet node.children k = some n) :
    startsWithColon k = false ∧ Traceable R (pre ++ [k]) n := by
  cases htr with
  | mk _ c hd w d _ hkey hch _ =>
    have hmem := mem_of_mapGet c k n (by simpa using hget)
    exact ⟨hkey k n hmem, hch k n hmem⟩

theorem Traceable.tr_of_dynamic {R : List String → String → Handler → Prop}
    {pre : List String} {node : RouteNode} (htr : Traceable R pre node) (name : String)
    (n : RouteNode) (hdyn : node.dynamicChild = some (name, n)) :
    Traceable R (pre ++ [colonSeg name]) n := by
  cases htr with
  | mk _ c hd w d _ _ _ hd1 => exact hd1 name n (by simpa using hdyn)

theorem Traceable.tr_handler {R : List String → String → Handler → Prop} {pre : List String}
    {node : RouteNode} (htr : Traceable R pre node) (k : String) (v : Handler)
    (hget : mapGet node.handler k = some v) : R pre k v := by
  cases htr with
  | mk _ c hd w d hh _ _ _ => exact hh k v (mem_of_mapGet hd k v (by simpa using hget))

theorem Traceable.tr_addHandler {R : List String → String → Handler → Prop}
    {pre : List String} {node : RouteNode} (htr : Traceable R pre node) (m : String)
    (h : Handler) (hR : R pre (toUpperCase m) h) : Traceable R pre (node.addHandler m h) := by
  cases htr with
  | mk _ c hd w d hh hkey hch hdyn =>
    refine Traceable.mk pre c _ w d ?_ hkey hch hdyn
    intro k v hmem
    rcases mem_mapSet_key hd _ k h v (by simpa using hmem) with hin | hnew
    · exact hh k v hin
    · rw [hnew.1, hnew.2]
      exact hR

theorem Traceable.tr_addStart {R : List String → String → Handler → Prop} {pre : List String}
    {node : RouteNode} (htr : Traceable R pre node) (m : String) (h : Handler) (seg : String)
    (isLast : Bool) (hidem : toUpperCase (toUpperCase m) = toUpperCase m)
    (hR : isLast = true → R (pre ++ [seg]) (toUpperCase m) h) :
    Traceable R (pre ++ [seg]) (addStart m h node seg isLast) := by
  unfold addStart
  cases hc : mapGet node.children seg with
  | some n =>
    have hn := (htr.tr_of_child seg n hc).2
    cases isLast
    · simpa using hn
    · simpa using hn.tr_addHandler m h (hR rfl)
  | none =>
    cases isLast
    · simpa using Traceable.tr_new R (pre ++ [seg])
    · simpa using (Traceable.tr_new R (pre ++ [seg])).tr_addHandler (toUpperCase m) h
        (by rw [hidem]; exact hR rfl)

theorem Traceable.tr_link {R : List String → String → Handler → Prop} {pre : List String}
    {node child : RouteNode} (htr : Traceable R pre node) (seg : String)
    (hchild : Traceable R (pre ++ [seg]) child) : Traceable R pre (link node seg child) := by
  have hfound : ∀ n, mapGet node.children seg = some n → startsWithColon seg = false :=
    fun n hn => (htr.tr_of_child seg n hn).1
  cases htr with
  | mk _ c hd w d hh hkey hch hdyn =>
    unfold link
    split
    · rename_i hcond
      have hlit : startsWithColon seg = false := by
        simp only [RouteNode.children_mk, Bool.or_eq_true, Option.isSome_iff_exists,
          Bool.not_eq_true'] at hcond
        rcases hcond with ⟨n, hn⟩ | hlit
        · exact hfound n hn
        · exact hlit
      refine Traceable.mk pre _ hd w d hh ?_ ?_ hdyn
      · intro k n hmem
        rcases mem_mapSet_key c seg k child n (by simpa using hmem) with hin | hnew
        · exact hkey k n hin
        · rw [hnew.1]
          exact hlit
      · intro k n hmem
        rcases mem_mapSet_key c seg k child n (by simpa using hmem) with hin | hnew
        · exact hch k n hin
        · rw [hnew.1, hnew.2]
          exact hchild
    · rename_i hcond
      have hcol : startsWithColon seg = true := by
        simp only [RouteNode.children_mk, Bool.or_eq_true, not_or] at hcond
        simpa using hcond.2
      refine Traceable.mk pre c hd w _ hh hkey hch ?_
      intro name n hsome
      simp only [Option.some.injEq, Prod.mk.injEq] at hsome
      rw [← hsome.1, ← hsome.2, colonSeg_substring1 seg hcol]
      exact hchild

/-- The loop of `addRoute` keeps every handler traceable: it stores its handler only in its
last iteration, for the route it has walked, and then throws nothing. -/
theorem Traceable.tr_addRouteLoop {R : List String → String → Handler → Prop} (m : String)
    (h : Handler) (hidem : toUpperCase (toUpperCase m) = toUpperCase m) :
    ∀ (segs pre : List String) (node : RouteNode), Traceable R pre node →
      ((addRouteLoop m h segs node).2 = none → segs ≠ [] → R (pre ++ segs) (toUpperCase m) h) →
      Traceable R pre (addRouteLoop m h segs node).1 := by
  intro segs
  induction segs with
  | nil => intro pre node htr _; simpa [addRouteLoop] using htr
  | cons seg rest ih =>
    intro pre node htr hR
    have hcons : ∀ (_ : addRouteLoop m h (seg :: rest) node =
        (link node seg (addRouteLoop m h rest (addStart m h node seg rest.isEmpty)).1,
          (addRouteLoop m h rest (addStart m h node seg rest.isEmpty)).2)),
        Traceable R pre (addRouteLoop m h (seg :: rest) node).1 := by
      intro heq
      rw [heq] at hR ⊢
      simp only [] at hR ⊢
      have hstart : Traceable R (pre ++ [seg]) (addStart m h node seg rest.isEmpty) := by
        apply htr.tr_addStart m h seg rest.isEmpty hidem
        intro hlast
        have hnil : rest = [] := by simpa using hlast
        subst hnil
        exact hR (by simp [addRouteLoop]) (by simp)
      refine htr.tr_link seg (ih (pre ++ [seg]) _ hstart ?_)
      intro hok hne
      have := hR hok (by simp)
      simpa [List.append_assoc] using this
    cases hc : mapGet node.children seg with
    | some found => exact hcons (addRouteLoop_cons_of_found m h seg rest node found hc)
    | none =>
      by_cases hstar : seg = "*"
      · subst hstar
        cases htr with
        | mk _ c hd w d hh hkey hch hdyn =>
          simp only [RouteNode.children_mk] at hc
          cases hl : rest.isEmpty
          · simpa [addRouteLoop, hc, RouteNode.add, hl] using
              Traceable.mk pre c hd w d hh hkey hch hdyn
          · simpa [addRouteLoop, hc, RouteNode.add, hl] using
              Traceable.mk pre c hd (mapSet w (toUpperCase m) h) d hh hkey hch hdyn
      · exact hcons (addRouteLoop_cons m h seg rest node hstar)

theorem Traceable.tr_after {R : List String → String → Handler → Prop} {r : TrieRouter}
    (htr : Traceable R [] r.root) (c : Call)
    (hR : ∀ x ∈ c.registration r, R x.1 x.2.1 x.2.2) : Traceable R [] (r.after c).root := by
  rcases after_root r c with hsame | ⟨p, m, h, hm, hc, hroot⟩
  · rw [hsame]
    exact htr
  · rw [hroot]
    subst hc
    refine Traceable.tr_addRouteLoop m h (toUpperCase_idem m hm) _ [] _ htr ?_
    intro hok _
    have hres : (r.addRoute (.string p) (.string m) (.function h)).2 = .ok () := by
      rw [addRoute_of_valid r p m h hm, hok]
    have := hR (normalizePath p, toUpperCase m, h) (by simp [Call.registration, reg, hres])
    simpa using this

/-- In every router state reached from a fresh router, every handler of the tree sits at the
end of the route of a successful registration with that method and handler. -/
theorem Traceable.tr_afterAll {R : List String → String → Handler → Prop} (calls : List Call) :
    ∀ (r : TrieRouter), (∀ x ∈ registrations r calls, R x.1 x.2.1 x.2.2) →
      Traceable R [] r.root → Traceable R [] (r.afterAll calls).root := by
  induction calls with
  | nil => intro r _ htr; simpa [TrieRouter.afterAll] using htr
  | cons c cs ih =>
    intro r hR htr
    have hstep := htr.tr_after c
      (fun x hx => hR x (by simp [registrations, hx]))
    have := ih (r.after c) (fun x hx => hR x (by simp [registrations, hx])) hstep
    simpa [TrieRouter.afterAll] using this

/-- The params after the loop of `findRoute` are the assignments, in order, of the parameter
name of each dynamic child the walk stepped into to the request segment at that position. -/
theorem findRouteLoop_params_eq {R : List String → String → Handler → Prop} (M : String) :
    ∀ (segs pre : List String) (node : RouteNode) (st : FindState), Traceable R pre node →
      (findRouteLoop M segs node st).dynamicParams =
        bindParams (walkedSteps segs node) segs st.dynamicParams := by
  intro segs
  induction segs with
  | nil => intro pre node st _; simp [findRouteLoop, walkedSteps, bindParams]
  | cons seg rest ih =>
    intro pre node st htr
    rw [findRouteLoop_cons]
    cases hc : mapGet node.children seg with
    | some n =>
      obtain ⟨hlit, hn⟩ := htr.tr_of_child seg n hc
      have hnext : nextNode node seg = some n := by simp [nextNode, hc]
      have hparams : nextParams node seg st.dynamicParams = st.dynamicParams := by
        simp [nextParams, hc]
      have hsteps : walkedSteps (seg :: rest) node = seg :: walkedSteps rest n := by
        simp [walkedSteps, hc]
      simp only [hnext, hparams, hsteps, bindParams, hlit, Bool.false_eq_true, if_false]
      split
      · rename_i hbreak
        have hnil : rest = [] := by
          simp only [Bool.and_eq_true, List.isEmpty_iff] at hbreak
          exact hbreak.1
        subst hnil
        simp [walkedSteps, bindParams]
      · exact ih (pre ++ [seg]) n _ hn
    | none =>
      cases hd : node.dynamicChild with
      | none =>
        have hnext : nextNode node seg = none := by simp [nextNode, hc, hd]
        have hparams : nextParams node seg st.dynamicParams = st.dynamicParams := by
          simp [nextParams, hc, hd]
        simp [hnext, hparams, walkedSteps, hc, hd, bindParams]
      | some pn =>
        obtain ⟨name, n⟩ := pn
        have hn := htr.tr_of_dynamic name n hd
        have hnext : nextNode node seg = some n := by simp [nextNode, hc, hd]
        have hparams : nextParams node seg st.dynamicParams =
            setProperty st.dynamicParams name seg := by
          simp [nextParams, hc, hd]
        have hsteps : walkedSteps (seg :: rest) node = colonSeg name :: walkedSteps rest n := by
          simp [walkedSteps, hc, hd]
        simp only [hnext, hparams, hsteps, bindParams, startsWithColon_colonSeg, if_true,
          substring1_colonSeg]
        split
        · rename_i hbreak
          have hnil : rest = [] := by
            simp only [Bool.and_eq_true, List.isEmpty_iff] at hbreak
            exact hbreak.1
          subst hnil
          simp [walkedSteps, bindParams]
        · exact ih (pre ++ [colonSeg name]) n _ hn

/-- When the loop of `findRoute` records an exact-match handler, the route it walked is the
route of a recorded registration of that handler for that method, and the request matches
it segment by segment. -/
theorem findRouteLoop_exact {R : List String → String → Handler → Prop} (M : String)
    (h : Handler) :
    ∀ (segs pre : List String) (node : RouteNode) (st : FindState), Traceable R pre node →
      st.handler = none → (findRouteLoop M segs node st).handler = some h →
      R (pre ++ walkedSteps segs node) M h ∧ SegmentsMatch (walkedSteps segs node) segs := by
  intro segs
  induction segs with
  | nil =>
    intro pre node st _ hst hres
    simp [findRouteLoop, hst] at hres
  | cons seg rest ih =>
    intro pre node st htr hst hres
    rw [findRouteLoop_cons] at hres
    have hstep : ∀ (s : String) (n : RouteNode), nextNode node seg = some n →
        Traceable R (pre ++ [s]) n → (startsWithColon s = true ∨ seg = s) →
        walkedSteps (seg :: rest) node = s :: walkedSteps rest n →
        R (pre ++ walkedSteps (seg :: rest) node) M h ∧
          SegmentsMatch (walkedSteps (seg :: rest) node) (seg :: rest) := by
      intro s n hnext hn hmatch hsteps
      rw [hsteps]
      simp only [hnext] at hres
      split at hres
      · simp [hst] at hres
      · rename_i hcont
        cases rest with
        | nil =>
          have hh : mapGet n.handler M = some h := by
            simpa [findRouteLoop] using hres
          have hR := hn.tr_handler M h hh
          refine ⟨by simpa [walkedSteps] using hR, ?_⟩
          simpa [walkedSteps, SegmentsMatch] using hmatch
        | cons s2 rest2 =>
          simp only [List.isEmpty_cons, Bool.false_eq_true, if_false] at hres
          obtain ⟨hR, hm⟩ := ih (pre ++ [s]) n
            ⟨st.handler, nextParams node seg st.dynamicParams,
              mapGet node.wildCardHandlers M⟩ hn hst hres
          refine ⟨by simpa [List.append_assoc] using hR, ?_⟩
          exact List.Forall₂.cons hmatch hm
    cases hc : mapGet node.children seg with
    | some n =>
      exact hstep seg n (by simp [nextNode, hc]) (htr.tr_of_child seg n hc).2 (Or.inr rfl)
        (by simp [walkedSteps, hc])
    | none =>
      cases hd : node.dynamicChild with
      | none =>
        have hnext : nextNode node seg = none := by simp [nextNode, hc, hd]
        simp [hnext, hst] at hres
      | some pn =>
        obtain ⟨name, n⟩ := pn
        exact hstep (colonSeg name) n (by simp [nextNode, hc, hd]) (htr.tr_of_dynamic name n hd)
          (Or.inl (startsWithColon_colonSeg name)) (by simp [walkedSteps, hc, hd])

/-- Every binding made by the assignments along a route maps the name of a dynamic segment
of the route to the request segment at the same position. -/
theorem mem_bindParams :
    ∀ (route segs : List String) (acc : Params) (kv : String × String),
      kv ∈ bindParams route segs acc → kv ∈ acc ∨ kv ∈ expectedParams route segs := by
  intro route
  induction route with
  | nil => intro segs acc kv hkv; exact Or.inl (by simpa [bindParams] using hkv)
  | cons r rs ih =>
    intro segs acc kv hkv
    cases segs with
    | nil => exact Or.inl (by simpa [bindParams] using hkv)
    | cons q qs =>
      simp only [bindParams] at hkv
      cases hcol : startsWithColon r
      · simp only [hcol, Bool.false_eq_true, if_false] at hkv
        rcases ih qs acc kv hkv with hin | hexp
        · exact Or.inl hin
        · exact Or.inr (by simpa [expectedParams, hcol] using hexp)
      · simp only [hcol, if_true] at hkv
        rcases ih qs _ kv hkv with hin | hexp
        · simp only [setProperty] at hin
          split at hin
          · exact Or.inl hin
          · obtain ⟨k, v⟩ := kv
            rcases mem_mapSet_key acc _ k q v hin with hold | hnew
            · exact Or.inl hold
            · exact Or.inr (by simp [expectedParams, hcol, hnew.1, hnew.2])
        · exact Or.inr (by simp [expectedParams, hcol, hexp])

theorem bindParams_of_no_dynamic :
    ∀ (route segs : List String) (acc : Params),
      (∀ s ∈ route, startsWithColon s = false) → bindParams route segs acc = acc := by
  intro route
  induction route with
  | nil => intro segs acc _; simp [bindParams]
  | cons r rs ih =>
    intro segs acc hlit
    cases segs with
    | nil => simp [bindParams]
    | cons q qs =>
      simp [bindParams, hlit r (List.mem_cons_self _ _),
        ih qs acc (fun s hs => hlit s (List.mem_cons_of_mem _ hs))]

/-! ## Parameters and the route of the returned handler (C14) -/

/-- C14 (amended): in every router state reached from a fresh router, for every path and
recognized method: when the walk of `findRoute` records an exact-match handler, that handler
is returned, it is the handler of a successful registration for that method whose route
matches the request segment by segment, and the params are exactly the assignments of that
route's dynamic-segment names to the request segments at their positions, so they contain
only bindings of dynamic segments on the path of the route whose handler is returned; in
every case, also with handler none or a wildcard fallback, the params are exactly the
assignments made at the dynamic children the walk stepped into, each binding the child's
name to the request segment at that position, and they are empty when the walk stepped into
no dynamic child. -/
theorem C14_params_follow_route (calls : List Call) (path m : String) (res : RouteMatch)
    (hm : isHttpMethod m = true)
    (hres : (TrieRouter.new.afterAll calls).findRoute path m = .ok res) :
    (∀ h, (findRouteLoop (toUpperCase m) (normalizePath path)
          (TrieRouter.new.afterAll calls).root ⟨none, [], none⟩).handler = some h →
        res.handler = some h ∧
          ∃ route, (route, toUpperCase m, h) ∈ registrations TrieRouter.new calls ∧
            SegmentsMatch route (normalizePath path) ∧
            res.params = bindParams route (normalizePath path) [] ∧
            ∀ kv ∈ res.params, kv ∈ expectedParams route (normalizePath path)) ∧
      res.params = bindParams
        (walkedSteps (normalizePath path) (TrieRouter.new.afterAll calls).root)
        (normalizePath path) [] ∧
      (∀ kv ∈ res.params, kv ∈ expectedParams
        (walkedSteps (normalizePath path) (TrieRouter.new.afterAll calls).root)
        (normalizePath path)) ∧
      ((∀ s ∈ walkedSteps (normalizePath path) (TrieRouter.new.afterAll calls).root,
        startsWithColon s = false) → res.params = []) := by
  have htr : Traceable (fun route M h => (route, M, h) ∈ registrations TrieRouter.new calls) []
      (TrieRouter.new.afterAll calls).root :=
    Traceable.tr_afterAll calls TrieRouter.new (fun _ hx => hx) (Traceable.tr_new _ [])
  have hparams := findRouteLoop_params_eq (toUpperCase m) (normalizePath path) []
    (TrieRouter.new.afterAll calls).root ⟨none, [], none⟩ htr
  rw [findRoute_of_valid _ path m hm] at hres
  injection hres with hres
  subst hres
  simp only [] at hparams ⊢
  have hmem : ∀ kv ∈ bindParams
      (walkedSteps (normalizePath path) (TrieRouter.new.afterAll calls).root)
      (normalizePath path) [],
      kv ∈ expectedParams
        (walkedSteps (normalizePath path) (TrieRouter.new.afterAll calls).root)
        (normalizePath path) := by
    intro kv hkv
    rcases mem_bindParams _ _ [] kv hkv with hin | hexp
    · simp at hin
    · exact hexp
  refine ⟨?_, hparams, ?_, ?_⟩
  · intro h hh
    obtain ⟨hR, hmatch⟩ := findRouteLoop_exact (toUpperCase m) h (normalizePath path) []
      (TrieRouter.new.afterAll calls).root ⟨none, [], none⟩ htr rfl hh
    refine ⟨by simp [hh, orElse], _, by simpa using hR, hmatch, hparams, ?_⟩
    rw [hparams]
    exact hmem
  · rw [hparams]
    exact hmem
  · intro hlit
    rw [hparams]
    exact bindParams_of_no_dynamic _ _ [] hlit

/-- C14 (amended) on the router holding `/users/:id` and `/users/me/profile`, for the request
`/users/5`, which the first route answers. -/
theorem C14_params_follow_route_witness :
    (∀ h, (findRouteLoop (toUpperCase "GET") (normalizePath "/users/5")
          (TrieRouter.new.afterAll
            [reg "/users/:id" "GET" 1, reg "/users/me/profile" "GET" 2]).root
          ⟨none, [], none⟩).handler = some h →
        (RouteMatch.mk (some 1) [("id", "5")]).handler = some h ∧
          ∃ route, (route, toUpperCase "GET", h) ∈ registrations TrieRouter.new
              [reg "/users/:id" "GET" 1, reg "/users/me/profile" "GET" 2] ∧
            SegmentsMatch route (normalizePath "/users/5") ∧
            (RouteMatch.mk (some 1) [("id", "5")]).params =
              bindParams route (normalizePath "/users/5") [] ∧
            ∀ kv ∈ (RouteMatch.mk (some 1) [("id", "5")]).params,
              kv ∈ expectedParams route (normalizePath "/users/5")) ∧
      (RouteMatch.mk (some 1) [("id", "5")]).params = bindParams
        (walkedSteps (normalizePath "/users/5") (TrieRouter.new.afterAll
          [reg "/users/:id" "GET" 1, reg "/users/me/profile" "GET" 2]).root)
        (normalizePath "/users/5") [] ∧
      (∀ kv ∈ (RouteMatch.mk (some 1) [("id", "5")]).params, kv ∈ expectedParams
        (walkedSteps (normalizePath "/users/5") (TrieRouter.new.afterAll
          [reg "/users/:id" "GET" 1, reg "/users/me/profile" "GET" 2]).root)
        (normalizePath "/users/5")) ∧
      ((∀ s ∈ walkedSteps (normalizePath "/users/5") (TrieRouter.new.afterAll
          [reg "/users/:id" "GET" 1, reg "/users/me/profile" "GET" 2]).root,
        startsWithColon s = false) → (RouteMatch.mk (some 1) [("id", "5")]).params = []) :=
  C14_params_follow_route [reg "/users/:id" "GET" 1, reg "/users/me/profile" "GET" 2]
    "/users/5" "GET" ⟨some 1, [("id", "5")]⟩ (by decide) (by decide)

end Velocy
